import Mathlib

/-!
# Maptel: a registry of phone-number dictionaries

Shallow embedding of `src/maptel.cc`.

* A C string (`char const *`) is `Option (List Char)`: `none` is the null
  pointer, `some cs` is the string whose characters before the terminating
  NUL are `cs`.
* `std::string` is `List Char`.
* `std::unordered_map` is `Finmap` (finite map, no order, extensional
  equality); `std::set` is `Finset`.
* `unsigned long` is `Nat` reduced modulo `ULONG_MODULUS` where the code does
  arithmetic on it (the handle counter `id_g`).
* The two function-local statics (`dictionaries` and `id_g`) form the explicit
  state `Registry`, passed in and out of every operation.
* `assert` under `debug` aborts: an operation returns `Except Fault _`.
  Dereferencing `end()`, streaming a null pointer and writing past the output
  buffer are reported as `Fault.undefined`.
* The diagnostic output on `std::cerr` is not modelled.
* `TEL_NUM_MAX_LEN` is declared in `maptel.h`; it is a parameter here.
-/

namespace jnp1

/-- The characters of a C string before its terminating NUL. -/
abbrev CStr := List Char

/-- The type `dictionary_t`: `std::unordered_map<std::string, std::string>`. -/
abbrev dictionary_t := Finmap (fun _ : List Char => List Char)

/-- The type `dictionary_id_t`: `unsigned long`. -/
abbrev dictionary_id_t := Nat

/-- Number of values of `unsigned long` (LP64). -/
def ULONG_MODULUS : Nat := 2 ^ 64

/-- The terminating character of a C string. -/
def NUL : Char := Char.ofNat 0

/-- The global state: the static map of `dictionaries_wrapper` and the static
counter `id_g` of `maptel_create`. -/
structure Registry where
  dictionaries : Finmap (fun _ : dictionary_id_t => dictionary_t)
  id_g : dictionary_id_t

/-- The state at program start: no dictionary, `id_g = 0`. -/
def Registry.initial : Registry := ⟨∅, 0⟩

/-- How a call can go wrong. -/
inductive Fault
  | assertion
  | undefined
  | diverged
  deriving DecidableEq, Repr

/-- The `for` loop of `is_tel_valid`: `i` counts up to `TEL_NUM_MAX_LEN`
(`n` is what is left of it); `some i` is the value of `i` when the loop is
left by its condition or by `break`, `none` is the `return false` of the
loop body. -/
def is_tel_valid_loop : List Char → Nat → Nat → Option Nat
  | _, 0, i => some i
  | [], _ + 1, i => some i
  | c :: cs, n + 1, i => if c.isDigit then is_tel_valid_loop cs n (i + 1) else none

/-- The function `is_tel_valid`. -/
def is_tel_valid (TEL_NUM_MAX_LEN : Nat) : Option CStr → Bool
  | none => false
  | some tel =>
    if tel.length > TEL_NUM_MAX_LEN then false
    else
      match is_tel_valid_loop tel TEL_NUM_MAX_LEN 0 with
      | none => false
      | some i => if i = 0 then false else true

/-- The function `maptel_create`: returns the new state and the handle. -/
def maptel_create (s : Registry) : Registry × dictionary_id_t :=
  let dictionaries :=
    if s.id_g ∈ s.dictionaries then s.dictionaries else s.dictionaries.insert s.id_g ∅
  let id_g := (s.id_g + 1) % ULONG_MODULUS
  (⟨dictionaries, id_g⟩, (id_g + ULONG_MODULUS - 1) % ULONG_MODULUS)

/-- The function `maptel_delete`. -/
def maptel_delete (debug : Bool) (s : Registry) (id : dictionary_id_t) :
    Except Fault Registry :=
  match s.dictionaries.lookup id with
  | none => if debug then .error .assertion else .error .undefined
  | some _ => .ok { s with dictionaries := s.dictionaries.erase id }

/-- The function `maptel_insert`. -/
def maptel_insert (TEL_NUM_MAX_LEN : Nat) (debug : Bool) (s : Registry) (id : dictionary_id_t)
    (tel_src tel_dst : Option CStr) : Except Fault Registry :=
  if debug && !is_tel_valid TEL_NUM_MAX_LEN tel_src then .error .assertion
  else if debug && !is_tel_valid TEL_NUM_MAX_LEN tel_dst then .error .assertion
  else
    match s.dictionaries.lookup id with
    | none => if debug then .error .assertion else .error .undefined
    | some d =>
      match tel_src, tel_dst with
      | some src, some dst =>
        .ok { s with dictionaries := s.dictionaries.insert id (d.insert src dst) }
      | _, _ => .error .undefined

/-- The function `maptel_erase`. -/
def maptel_erase (TEL_NUM_MAX_LEN : Nat) (debug : Bool) (s : Registry) (id : dictionary_id_t)
    (tel_src : Option CStr) : Except Fault Registry :=
  if debug && !is_tel_valid TEL_NUM_MAX_LEN tel_src then .error .assertion
  else
    match tel_src with
    | none => .error .undefined
    | some src =>
      match s.dictionaries.lookup id with
      | none => if debug then .error .assertion else .error .undefined
      | some d =>
        match d.lookup src with
        | some _ => .ok { s with dictionaries := s.dictionaries.insert id (d.erase src) }
        | none => .ok s

/-- The `while` loop of `maptel_transform` (lines 175-186). `dst` is the
original number, `inner_it` the iterator (`none` is `inner_end`, `some v` an
entry whose value is `v`), `src` the current number. One unit of fuel is one
execution of the loop body; `none` means the fuel ran out. -/
def transform_loop (d : dictionary_t) (dst : List Char) :
    Nat → Option (List Char) → List Char → Finset (List Char) → Option (List Char)
  | _, none, src, _ => some src
  | 0, some _, _, _ => none
  | fuel + 1, some v, _, visited_numbers =>
    if v ∈ visited_numbers then some dst
    else transform_loop d dst fuel (d.lookup v) v (insert v visited_numbers)

/-- Lines 160-186 of `maptel_transform` on the dictionary found for the
handle: the value of `src` after the loop. The loop is given `|d|` units of
fuel, which is always enough (`chain_walk_isSome`). -/
def chain_walk (d : dictionary_t) (tel_src : List Char) : Option (List Char) :=
  transform_loop d tel_src d.keys.card (d.lookup tel_src) tel_src {tel_src}

/-- Lines 192-193: `std::copy` of `src` to `tel_dst` and the terminator. -/
def store_cstr (buf : List Char) (src : List Char) : List Char :=
  src ++ NUL :: buf.drop (src.length + 1)

/-- The function `maptel_transform`: `tel_dst` is the memory the output
pointer addresses (`none` for a null pointer); the result is the state and
that memory after the call. -/
def maptel_transform (TEL_NUM_MAX_LEN : Nat) (debug : Bool) (s : Registry)
    (id : dictionary_id_t) (tel_src : Option CStr) (tel_dst : Option (List Char)) (len : Nat) :
    Except Fault (Registry × List Char) :=
  if debug && !is_tel_valid TEL_NUM_MAX_LEN tel_src then .error .assertion
  else if debug && tel_dst.isNone then .error .assertion
  else
    match tel_src with
    | none => .error .undefined
    | some t =>
      match s.dictionaries.lookup id with
      | none => if debug then .error .assertion else .error .undefined
      | some d =>
        match chain_walk d t with
        | none => .error .diverged
        | some src =>
          if debug && !(src.length < len) then .error .assertion
          else
            match tel_dst with
            | none => .error .undefined
            | some buf =>
              if src.length < buf.length then .ok (s, store_cstr buf src)
              else .error .undefined

/-- The calls a client can make. -/
inductive Op
  | create
  | delete (id : dictionary_id_t)
  | insert (id : dictionary_id_t) (tel_src tel_dst : Option CStr)
  | erase (id : dictionary_id_t) (tel_src : Option CStr)
  | transform (id : dictionary_id_t) (tel_src : Option CStr) (tel_dst : Option (List Char))
      (len : Nat)

/-- What a call gives back to the client. -/
inductive Ret
  | handle (id : dictionary_id_t)
  | buffer (tel_dst : List Char)
  | unit
  deriving DecidableEq

/-- One call on the global state. -/
def step (TEL_NUM_MAX_LEN : Nat) (debug : Bool) (s : Registry) : Op → Except Fault (Registry × Ret)
  | .create => let r := maptel_create s; .ok (r.1, .handle r.2)
  | .delete id => (maptel_delete debug s id).map (fun s1 => (s1, Ret.unit))
  | .insert id a b => (maptel_insert TEL_NUM_MAX_LEN debug s id a b).map (fun s1 => (s1, Ret.unit))
  | .erase id a => (maptel_erase TEL_NUM_MAX_LEN debug s id a).map (fun s1 => (s1, Ret.unit))
  | .transform id a buf len =>
    (maptel_transform TEL_NUM_MAX_LEN debug s id a buf len).map (fun r => (r.1, Ret.buffer r.2))

/-- A sequence of calls; the program stops at the first fault. The result is
the final state and what each call returned, in order. -/
def run (TEL_NUM_MAX_LEN : Nat) (debug : Bool) : Registry → List Op → Except Fault (Registry × List Ret)
  | s, [] => .ok (s, [])
  | s, op :: ops =>
    match step TEL_NUM_MAX_LEN debug s op with
    | .error e => .error e
    | .ok (s1, r) =>
      match run TEL_NUM_MAX_LEN debug s1 ops with
      | .error e => .error e
      | .ok (s2, rs) => .ok (s2, r :: rs)

/-- The handles among the returned values, in order: what the successive
`maptel_create` calls returned. -/
def created_handles : List Ret → List dictionary_id_t
  | [] => []
  | .handle h :: rs => h :: created_handles rs
  | _ :: rs => created_handles rs

/-- The chain of the specification: `s_0 = src`, `s_(k+1) = d(s_k)` as long as
`s_k` is a key of `d` (`none` once the chain has ended). -/
def chain (d : dictionary_t) (src : List Char) : Nat → Option (List Char)
  | 0 => some src
  | k + 1 => (chain d src k).bind (fun e => d.lookup e)

/-- A registry with one dictionary, `1 ↦ 2`, `2 ↦ 3`, under handle `0`. -/
def sample_registry : Registry :=
  ⟨(∅ : Finmap (fun _ : dictionary_id_t => dictionary_t)).insert 0
    (((∅ : dictionary_t).insert ['1'] ['2']).insert ['2'] ['3']), 1⟩

/-- An output buffer of four characters. -/
def sample_buffer : List Char := ['x', 'x', 'x', 'x']

/-- A registry with an empty dictionary under handle `0`. -/
def fresh_registry : Registry :=
  ⟨(∅ : Finmap (fun _ : dictionary_id_t => dictionary_t)).insert 0 ∅, 1⟩

/-- A registry with two dictionaries, `1 ↦ 3` under handle `0` and `7 ↦ 8`
under handle `1`. -/
def two_registry : Registry :=
  ⟨Finmap.insert 1 ((∅ : dictionary_t).insert ['7'] ['8'])
    ((∅ : Finmap (fun _ : dictionary_id_t => dictionary_t)).insert 0
      ((∅ : dictionary_t).insert ['1'] ['3'])), 2⟩

/-- The calls `create, delete 0, create, delete 1, ...`: `n` rounds of creating
a dictionary and deleting it at once. -/
def create_delete_rounds : Nat → List Op
  | 0 => []
  | n + 1 => create_delete_rounds n ++ [Op.create, Op.delete n]

/-- What the calls of `create_delete_rounds` return. -/
def create_delete_results : Nat → List Ret
  | 0 => []
  | n + 1 => create_delete_results n ++ [Ret.handle n, Ret.unit]

/-- Six calls with three `maptel_create` among them. -/
def sample_calls : List Op :=
  [Op.create, Op.insert 0 (some ['1']) (some ['2']), Op.create, Op.delete 0, Op.create,
    Op.transform 1 (some ['5']) (some sample_buffer) 4]

/-- The loop `transform_loop` with a counter `n` of the executions of its
body; every execution does one `find` on the dictionary, and one more `find`
is done before the loop. -/
def transform_loop_count (d : dictionary_t) (dst : List Char) :
    Nat → Option (List Char) → List Char → Finset (List Char) → Nat →
      Option (List Char × Nat)
  | _, none, src, _, n => some (src, n)
  | 0, some _, _, _, _ => none
  | fuel + 1, some v, _, visited_numbers, n =>
    if v ∈ visited_numbers then some (dst, n + 1)
    else transform_loop_count d dst fuel (d.lookup v) v (insert v visited_numbers) (n + 1)

/-- The loop contract of the specification (section 4.2): look up `current`;
if absent return `current`; if the value is in `visited` return `src`;
otherwise add it to `visited` and go on from it. One unit of fuel is one
iteration; `none` means the fuel ran out. -/
def spec_loop (d : dictionary_t) (src : List Char) :
    Nat → List Char → Finset (List Char) → Option (List Char)
  | 0, _, _ => none
  | fuel + 1, current, visited =>
    match d.lookup current with
    | none => some current
    | some next =>
      if next ∈ visited then some src
      else spec_loop d src fuel next (insert next visited)

/-- The resolution of the specification: `visited = {src}`, `current = src`,
then the loop contract. -/
def spec_resolve (d : dictionary_t) (src : List Char) (fuel : Nat) : Option (List Char) :=
  spec_loop d src fuel src {src}

/-- Every key and every value of every dictionary of the state is a valid
phone number. -/
def entries_valid (TEL_NUM_MAX_LEN : Nat) (s : Registry) : Prop :=
  ∀ (h : dictionary_id_t) (d : dictionary_t) (k v : List Char),
    s.dictionaries.lookup h = some d → d.lookup k = some v →
    is_tel_valid TEL_NUM_MAX_LEN (some k) = true ∧ is_tel_valid TEL_NUM_MAX_LEN (some v) = true

/-- The calls that build `sample_registry`: one dictionary, then `1 ↦ 2` and
`2 ↦ 3`. -/
def chain_calls : List Op :=
  [Op.create, Op.insert 0 (some ['1']) (some ['2']), Op.insert 0 (some ['2']) (some ['3'])]

/-- The specification's words for a valid handle, on the history of a run
(the calls made, each with what it returned): `h` was returned by an earlier
`maptel_create` and has not been passed to a `maptel_delete` since (in a
history every call succeeded). -/
def returned_and_not_deleted (history : List (Op × Ret)) (h : dictionary_id_t) : Prop :=
  ∃ before after, history = before ++ (Op.create, Ret.handle h) :: after ∧
    ∀ e ∈ after, e.1 ≠ Op.delete h

/-- The state after `2^64 - 1` rounds of `create_delete_rounds` and one more
`maptel_create`: the last handle is valid and the counter is back at `0`. -/
def wrapped_registry : Registry :=
  ⟨(∅ : Finmap (fun _ : dictionary_id_t => dictionary_t)).insert (ULONG_MODULUS - 1) ∅, 0⟩

/-- As `create_delete_rounds`, from a state whose counter is `c`: `n` rounds
`create, delete c, create, delete (c + 1), ...`. -/
def create_delete_rounds_from (c : Nat) : Nat → List Op
  | 0 => []
  | n + 1 => create_delete_rounds_from c n ++ [Op.create, Op.delete (c + n)]

/-- What the calls of `create_delete_rounds_from` return. -/
def create_delete_results_from (c : Nat) : Nat → List Ret
  | 0 => []
  | n + 1 => create_delete_results_from c n ++ [Ret.handle (c + n), Ret.unit]

/-- The registry with the dictionary `1 ↦ 2` under handle `0` and the counter
at `c`. -/
def kept_registry (c : Nat) : Registry :=
  ⟨(∅ : Finmap (fun _ : dictionary_id_t => dictionary_t)).insert 0
    ((∅ : dictionary_t).insert ['1'] ['2']), c⟩

/-- A dictionary is created and given the entry `1 ↦ 2`; then `2^64 - 1`
rounds of `maptel_create` and `maptel_delete` follow. -/
def wrapping_calls : List Op :=
  [Op.create, Op.insert 0 (some ['1']) (some ['2'])] ++
    create_delete_rounds_from 1 (ULONG_MODULUS - 1)

/-! ## The chain of a number -/

theorem chain_none_of_le (d : dictionary_t) (src : List Char) {k m : Nat} (hkm : k ≤ m)
    (hk : chain d src k = none) : chain d src m = none := by
  induction hkm with
  | refl => exact hk
  | step _ ih => simp [chain, ih]

theorem chain_add (d : dictionary_t) (src : List Char) (k m : Nat) :
    chain d src (k + m) = (chain d src k).bind (fun e => chain d e m) := by
  induction m with
  | zero => simp [chain]
  | succ m ih =>
    rw [← Nat.add_assoc]
    show (chain d src (k + m)).bind _ = _
    rw [ih]
    cases chain d src k with
    | none => rfl
    | some e => rfl

theorem chain_mem_of_succ (d : dictionary_t) (src : List Char) {k : Nat} {e e1 : List Char}
    (hk : chain d src k = some e) (hk1 : chain d src (k + 1) = some e1) : e ∈ d := by
  have h : d.lookup e = some e1 := by
    have h2 : (chain d src k).bind (fun e => d.lookup e) = some e1 := hk1
    rw [hk] at h2
    exact h2
  exact Finmap.mem_of_lookup_eq_some h

theorem chain_loop_mul (d : dictionary_t) (v : List Char) (p : Nat) (hp : chain d v p = some v)
    (m : Nat) : chain d v (m * p) = some v := by
  induction m with
  | zero => simp [chain]
  | succ m ih =>
    rw [Nat.succ_mul, chain_add, ih]
    exact hp

/-- A chain that comes back to an earlier number never ends. -/
theorem chain_isSome_of_repeat (d : dictionary_t) (src v : List Char) {i j : Nat} (hij : i ≤ j)
    (hi : chain d src i = some v) (hj : chain d src (j + 1) = some v) (k : Nat) :
    ∃ e, chain d src k = some e := by
  have hp : chain d v (j + 1 - i) = some v := by
    have h := chain_add d src i (j + 1 - i)
    rw [hi, show i + (j + 1 - i) = j + 1 by omega, hj] at h
    exact h.symm
  have hbig : chain d src (i + k * (j + 1 - i)) = some v := by
    rw [chain_add, hi]
    exact chain_loop_mul d v _ hp k
  have hle : k ≤ i + k * (j + 1 - i) := by
    have h1 : 1 ≤ j + 1 - i := by omega
    calc k = k * 1 := (Nat.mul_one k).symm
      _ ≤ k * (j + 1 - i) := Nat.mul_le_mul_left k h1
      _ ≤ i + k * (j + 1 - i) := Nat.le_add_left _ _
  cases hk : chain d src k with
  | some e => exact ⟨e, rfl⟩
  | none =>
    rw [chain_none_of_le d src hle hk] at hbig
    cases hbig

/-- The end of a chain is unique. -/
theorem chain_end_unique (d : dictionary_t) (src : List Char) {k m : Nat} {e r : List Char}
    (hk : chain d src k = some e) (he : d.lookup e = none)
    (hm : chain d src m = some r) (hr : d.lookup r = none) : e = r := by
  have hk1 : chain d src (k + 1) = none := by
    show (chain d src k).bind _ = none
    rw [hk]; exact he
  have hm1 : chain d src (m + 1) = none := by
    show (chain d src m).bind _ = none
    rw [hm]; exact hr
  have h1 : m ≤ k := by
    by_contra hc
    have := chain_none_of_le d src (show k + 1 ≤ m by omega) hk1
    rw [hm] at this; cases this
  have h2 : k ≤ m := by
    by_contra hc
    have := chain_none_of_le d src (show m + 1 ≤ k by omega) hm1
    rw [hk] at this; cases this
  have hkm : k = m := Nat.le_antisymm h2 h1
  subst hkm
  rw [hk] at hm
  exact Option.some.inj hm

/-! ## The loop of `maptel_transform` -/

theorem transform_loop_end (d : dictionary_t) (dst : List Char) (fuel : Nat) (src : List Char)
    (visited : Finset (List Char)) : transform_loop d dst fuel none src visited = some src := by
  cases fuel <;> rfl

/-- What the loop returns, when it returns: the end of the chain, or the
original number when the chain never ends. -/
theorem transform_loop_spec (d : dictionary_t) (dst : List Char) :
    ∀ (fuel j : Nat) (src : List Char) (visited : Finset (List Char)) (r : List Char),
      chain d dst j = some src →
      (∀ x, x ∈ visited ↔ ∃ i, i ≤ j ∧ chain d dst i = some x) →
      transform_loop d dst fuel (d.lookup src) src visited = some r →
      (d.lookup r = none ∧ ∃ k, chain d dst k = some r) ∨
        (r = dst ∧ ∀ k, ∃ e, chain d dst k = some e ∧ e ∈ d) := by
  intro fuel
  induction fuel with
  | zero =>
    intro j src visited r hj _ hr
    cases hl : d.lookup src with
    | none =>
      rw [hl, transform_loop_end] at hr
      cases hr
      exact Or.inl ⟨hl, j, hj⟩
    | some v =>
      rw [hl] at hr
      simp [transform_loop] at hr
  | succ fuel ih =>
    intro j src visited r hj hvis hr
    cases hl : d.lookup src with
    | none =>
      rw [hl, transform_loop_end] at hr
      cases hr
      exact Or.inl ⟨hl, j, hj⟩
    | some v =>
      rw [hl] at hr
      have hj1 : chain d dst (j + 1) = some v := by
        show (chain d dst j).bind _ = some v
        rw [hj]; exact hl
      by_cases hv : v ∈ visited
      · simp only [transform_loop, if_pos hv] at hr
        cases hr
        refine Or.inr ⟨rfl, ?_⟩
        obtain ⟨i, hi, hci⟩ := (hvis v).1 hv
        intro k
        obtain ⟨e, he⟩ := chain_isSome_of_repeat d dst v hi hci hj1 k
        obtain ⟨e1, he1⟩ := chain_isSome_of_repeat d dst v hi hci hj1 (k + 1)
        exact ⟨e, he, chain_mem_of_succ d dst he he1⟩
      · simp only [transform_loop, if_neg hv] at hr
        refine ih (j + 1) v (insert v visited) r hj1 ?_ hr
        intro x
        rw [Finset.mem_insert, hvis x]
        constructor
        · rintro (rfl | ⟨i, hi, hc⟩)
          · exact ⟨j + 1, le_refl _, hj1⟩
          · exact ⟨i, by omega, hc⟩
        · rintro ⟨i, hi, hc⟩
          by_cases hij : i = j + 1
          · subst hij
            rw [hj1] at hc
            exact Or.inl (Option.some.inj hc).symm
          · exact Or.inr ⟨i, by omega, hc⟩

/-- The loop returns when its fuel covers the keys not yet visited. -/
theorem transform_loop_isSome (d : dictionary_t) (dst : List Char) :
    ∀ (fuel : Nat) (src : List Char) (visited : Finset (List Char)),
      src ∈ visited → (∀ x ∈ visited, x ≠ src → x ∈ d) →
      d.keys.card + 1 ≤ fuel + visited.card →
      ∃ r, transform_loop d dst fuel (d.lookup src) src visited = some r := by
  intro fuel
  induction fuel with
  | zero =>
    intro src visited hsrc hkeys hcard
    cases hl : d.lookup src with
    | none => exact ⟨src, transform_loop_end _ _ _ _ _⟩
    | some v =>
      exfalso
      have hsub : visited ⊆ d.keys := by
        intro x hx
        rw [Finmap.mem_keys]
        by_cases hxs : x = src
        · subst hxs; exact Finmap.mem_of_lookup_eq_some hl
        · exact hkeys x hx hxs
      have := Finset.card_le_card hsub
      omega
  | succ fuel ih =>
    intro src visited hsrc hkeys hcard
    cases hl : d.lookup src with
    | none => exact ⟨src, transform_loop_end _ _ _ _ _⟩
    | some v =>
      by_cases hv : v ∈ visited
      · exact ⟨dst, by simp only [transform_loop, if_pos hv]⟩
      · simp only [transform_loop, if_neg hv]
        apply ih v (insert v visited) (Finset.mem_insert_self _ _)
        · intro x hx hxv
          rcases Finset.mem_insert.1 hx with h | h
          · exact absurd h hxv
          · by_cases hxs : x = src
            · subst hxs; exact Finmap.mem_of_lookup_eq_some hl
            · exact hkeys x h hxs
        · rw [Finset.card_insert_of_not_mem hv]
          omega

/-- The chain walk always returns. -/
theorem chain_walk_isSome (d : dictionary_t) (t : List Char) : ∃ r, chain_walk d t = some r := by
  apply transform_loop_isSome d t d.keys.card t {t} (Finset.mem_singleton_self t)
  · intro x hx hxt
    exact absurd (Finset.mem_singleton.1 hx) hxt
  · simp

theorem chain_walk_spec (d : dictionary_t) (t r : List Char) (h : chain_walk d t = some r) :
    (d.lookup r = none ∧ ∃ k, chain d t k = some r) ∨
      (r = t ∧ ∀ k, ∃ e, chain d t k = some e ∧ e ∈ d) := by
  apply transform_loop_spec d t d.keys.card 0 t {t} r rfl _ h
  intro x
  rw [Finset.mem_singleton]
  constructor
  · rintro rfl
    exact ⟨0, le_refl _, rfl⟩
  · rintro ⟨i, hi, hc⟩
    have : i = 0 := by omega
    subst this
    exact (Option.some.inj hc).symm

/-- When the chain ends, the walk returns its end. -/
theorem chain_walk_of_end (d : dictionary_t) (t e : List Char) (k : Nat)
    (hk : chain d t k = some e) (he : d.lookup e = none) : chain_walk d t = some e := by
  obtain ⟨r, hr⟩ := chain_walk_isSome d t
  rcases chain_walk_spec d t r hr with ⟨hr1, m, hm⟩ | ⟨_, hall⟩
  · rw [hr, chain_end_unique d t hk he hm hr1]
  · obtain ⟨e1, he1, hmem⟩ := hall k
    rw [hk] at he1
    cases he1
    exact absurd hmem (Finmap.lookup_eq_none.1 he)

/-- When the chain never ends, the walk returns the original number. -/
theorem chain_walk_of_cycle (d : dictionary_t) (t : List Char)
    (hall : ∀ k, ∃ e, chain d t k = some e ∧ e ∈ d) : chain_walk d t = some t := by
  obtain ⟨r, hr⟩ := chain_walk_isSome d t
  rcases chain_walk_spec d t r hr with ⟨hr1, m, hm⟩ | ⟨hrt, _⟩
  · obtain ⟨e1, he1, hmem⟩ := hall m
    rw [hm] at he1
    cases he1
    exact absurd hmem (Finmap.lookup_eq_none.1 hr1)
  · rw [hr, hrt]

/-- The call `maptel_transform` on a valid handle and a valid number, with
room for the result: it writes what the chain walk returns. -/
theorem maptel_transform_ok (M : Nat) (debug : Bool) (s : Registry) (h : dictionary_id_t)
    (d : dictionary_t) (src r buf : List Char) (len : Nat)
    (hh : s.dictionaries.lookup h = some d) (hv : is_tel_valid M (some src) = true)
    (hw : chain_walk d src = some r) (hlen : r.length < len) (hbuf : r.length < buf.length) :
    maptel_transform M debug s h (some src) (some buf) len = .ok (s, store_cstr buf r) := by
  simp [maptel_transform, hh, hv, hw, hlen, hbuf]

/-- The call `maptel_insert` on a valid handle and valid numbers. -/
theorem maptel_insert_ok (M : Nat) (debug : Bool) (s : Registry) (h : dictionary_id_t)
    (d : dictionary_t) (a b : List Char)
    (hh : s.dictionaries.lookup h = some d) (ha : is_tel_valid M (some a) = true)
    (hb : is_tel_valid M (some b) = true) :
    maptel_insert M debug s h (some a) (some b) =
      .ok { s with dictionaries := s.dictionaries.insert h (d.insert a b) } := by
  simp [maptel_insert, hh, ha, hb]

/-- The call `maptel_erase` on a valid handle and a valid number. -/
theorem maptel_erase_ok (M : Nat) (debug : Bool) (s : Registry) (h : dictionary_id_t)
    (d : dictionary_t) (a : List Char)
    (hh : s.dictionaries.lookup h = some d) (ha : is_tel_valid M (some a) = true) :
    maptel_erase M debug s h (some a) =
      .ok (if a ∈ d then { s with dictionaries := s.dictionaries.insert h (d.erase a) } else s) := by
  by_cases hm : a ∈ d
  · obtain ⟨v, hv⟩ := Finmap.mem_iff.1 hm
    simp [maptel_erase, hh, ha, hv, hm]
  · have hv := Finmap.lookup_eq_none.2 hm
    simp [maptel_erase, hh, ha, hv, hm]

/-- Storing a dictionary under a handle that already holds it changes nothing. -/
theorem insert_lookup_self {s : Finmap (fun _ : dictionary_id_t => dictionary_t)}
    {h : dictionary_id_t} {d : dictionary_t} (hh : s.lookup h = some d) : s.insert h d = s := by
  apply Finmap.ext_lookup
  intro x
  by_cases hx : x = h
  · subst hx; rw [Finmap.lookup_insert, hh]
  · rw [Finmap.lookup_insert_of_ne _ hx]

/-- Inserting a new key and erasing it gives the map back. -/
theorem erase_insert_of_not_mem {α : Type} {β : Type} [DecidableEq α]
    {d : Finmap (fun _ : α => β)} {a : α} {b : β} (ha : a ∉ d) :
    (d.insert a b).erase a = d := by
  apply Finmap.ext_lookup
  intro x
  by_cases hx : x = a
  · subst hx; rw [Finmap.lookup_erase, Finmap.lookup_eq_none.2 ha]
  · rw [Finmap.lookup_erase_ne hx, Finmap.lookup_insert_of_ne _ hx]

/-! ## Resolution -/

/-- C1: for a dictionary `d` under a valid handle and a valid number `src`,
with `s_0 = src` and `s_(k+1) = d(s_k)`: if some `s_k` is not a key of `d`
(there is only one such `k`, the end of the chain), `maptel_transform` writes
that `s_k`; if every `s_k` is a key, it writes `src`. -/
theorem maptel_transform_follows_chain (M : Nat) (debug : Bool) (s : Registry)
    (h : dictionary_id_t) (d : dictionary_t) (src buf : List Char) (len : Nat)
    (hh : s.dictionaries.lookup h = some d) (hv : is_tel_valid M (some src) = true) :
    (∀ k e, chain d src k = some e → d.lookup e = none →
        e.length < len → e.length < buf.length →
        maptel_transform M debug s h (some src) (some buf) len = .ok (s, store_cstr buf e)) ∧
    ((∀ k, ∃ e, chain d src k = some e ∧ e ∈ d) →
        src.length < len → src.length < buf.length →
        maptel_transform M debug s h (some src) (some buf) len = .ok (s, store_cstr buf src)) := by
  constructor
  · intro k e hk he hlen hbuf
    exact maptel_transform_ok M debug s h d src e buf len hh hv
      (chain_walk_of_end d src e k hk he) hlen hbuf
  · intro hall hlen hbuf
    exact maptel_transform_ok M debug s h d src src buf len hh hv
      (chain_walk_of_cycle d src hall) hlen hbuf

theorem maptel_transform_follows_chain_witness :
    maptel_transform 22 true sample_registry 0 (some ['1']) (some sample_buffer) 4 =
      .ok (sample_registry, ['3', NUL, 'x', 'x']) :=
  (maptel_transform_follows_chain 22 true sample_registry 0
    (((∅ : dictionary_t).insert ['1'] ['2']).insert ['2'] ['3']) ['1'] sample_buffer 4
    (by decide) (by decide)).1 2 ['3'] (by decide) (by decide) (by decide) (by decide)

/-- C2: on any registry state, for a valid handle and valid numbers `a` and
`b` (also `a = b`): after `maptel_insert(h, a, b)` and `maptel_insert(h, b, a)`
the call `maptel_transform(h, a)` writes `a`. -/
theorem maptel_transform_cycle_fallback (M : Nat) (debug : Bool) (s : Registry)
    (h : dictionary_id_t) (d : dictionary_t) (a b buf : List Char) (len : Nat)
    (hh : s.dictionaries.lookup h = some d) (ha : is_tel_valid M (some a) = true)
    (hb : is_tel_valid M (some b) = true) (hlen : a.length < len) (hbuf : a.length < buf.length) :
    ∃ s1 s2, maptel_insert M debug s h (some a) (some b) = .ok s1 ∧
      maptel_insert M debug s1 h (some b) (some a) = .ok s2 ∧
      maptel_transform M debug s2 h (some a) (some buf) len = .ok (s2, store_cstr buf a) := by
  have h1 : ({ s with dictionaries := s.dictionaries.insert h (d.insert a b) } :
      Registry).dictionaries.lookup h = some (d.insert a b) := Finmap.lookup_insert _
  refine ⟨_, _, maptel_insert_ok M debug s h d a b hh ha hb,
    maptel_insert_ok M debug _ h (d.insert a b) b a h1 hb ha, ?_⟩
  have hlb : ((d.insert a b).insert b a).lookup b = some a := Finmap.lookup_insert _
  have hla : ∃ v, ((d.insert a b).insert b a).lookup a = some v ∧ (v = a ∨ v = b) := by
    by_cases hab : a = b
    · subst hab; exact ⟨a, hlb, Or.inl rfl⟩
    · refine ⟨b, ?_, Or.inr rfl⟩
      rw [Finmap.lookup_insert_of_ne _ hab, Finmap.lookup_insert]
  have hmb : b ∈ (d.insert a b).insert b a := Finmap.mem_of_lookup_eq_some hlb
  have hma : a ∈ (d.insert a b).insert b a := by
    obtain ⟨v, hv, _⟩ := hla
    exact Finmap.mem_of_lookup_eq_some hv
  have hchain : ∀ k, chain ((d.insert a b).insert b a) a k = some a ∨
      chain ((d.insert a b).insert b a) a k = some b := by
    intro k
    induction k with
    | zero => exact Or.inl rfl
    | succ k ih =>
      show (chain _ a k).bind _ = some a ∨ (chain _ a k).bind _ = some b
      rcases ih with ih | ih
      · rw [ih]
        obtain ⟨v, hv, hv2⟩ := hla
        rcases hv2 with rfl | rfl
        · exact Or.inl hv
        · exact Or.inr hv
      · rw [ih]; exact Or.inl hlb
  apply maptel_transform_ok M debug _ h ((d.insert a b).insert b a) a a buf len
    (Finmap.lookup_insert _) ha _ hlen hbuf
  apply chain_walk_of_cycle
  intro k
  rcases hchain k with hk | hk
  · exact ⟨a, hk, hma⟩
  · exact ⟨b, hk, hmb⟩

theorem maptel_transform_cycle_fallback_witness :
    ∃ s1 s2, maptel_insert 22 true sample_registry 0 (some ['1']) (some ['2']) = .ok s1 ∧
      maptel_insert 22 true s1 0 (some ['2']) (some ['1']) = .ok s2 ∧
      maptel_transform 22 true s2 0 (some ['1']) (some sample_buffer) 4 =
        .ok (s2, store_cstr sample_buffer ['1']) :=
  maptel_transform_cycle_fallback 22 true sample_registry 0
    (((∅ : dictionary_t).insert ['1'] ['2']).insert ['2'] ['3']) ['1'] ['2'] sample_buffer 4
    (by decide) (by decide) (by decide) (by decide) (by decide)

/-- C3: for a valid handle and a valid number `src` that is not a key of the
dictionary of the handle, `maptel_transform(h, src)` writes `src`. -/
theorem maptel_transform_identity_when_absent (M : Nat) (debug : Bool) (s : Registry)
    (h : dictionary_id_t) (d : dictionary_t) (src buf : List Char) (len : Nat)
    (hh : s.dictionaries.lookup h = some d) (hv : is_tel_valid M (some src) = true)
    (habs : src ∉ d) (hlen : src.length < len) (hbuf : src.length < buf.length) :
    maptel_transform M debug s h (some src) (some buf) len = .ok (s, store_cstr buf src) :=
  maptel_transform_ok M debug s h d src src buf len hh hv
    (chain_walk_of_end d src src 0 rfl (Finmap.lookup_eq_none.2 habs)) hlen hbuf

theorem maptel_transform_identity_when_absent_witness :
    maptel_transform 22 false sample_registry 0 (some ['7', '7']) (some sample_buffer) 3 =
      .ok (sample_registry, ['7', '7', NUL, 'x']) :=
  maptel_transform_identity_when_absent 22 false sample_registry 0
    (((∅ : dictionary_t).insert ['1'] ['2']).insert ['2'] ['3']) ['7', '7'] sample_buffer 3
    (by decide) (by decide) (by decide) (by decide) (by decide)

/-- C4: for an empty dictionary under handle `h` and pairwise distinct valid
numbers `a`, `b`, `c`: after `maptel_insert(h, a, b)` and
`maptel_insert(h, b, c)` the call `maptel_transform(h, a)` writes `c`. -/
theorem maptel_transform_two_step_chain (M : Nat) (debug : Bool) (s : Registry)
    (h : dictionary_id_t) (a b c buf : List Char) (len : Nat)
    (hh : s.dictionaries.lookup h = some ∅) (ha : is_tel_valid M (some a) = true)
    (hb : is_tel_valid M (some b) = true) (hc : is_tel_valid M (some c) = true)
    (hab : a ≠ b) (hac : a ≠ c) (hbc : b ≠ c)
    (hlen : c.length < len) (hbuf : c.length < buf.length) :
    ∃ s1 s2, maptel_insert M debug s h (some a) (some b) = .ok s1 ∧
      maptel_insert M debug s1 h (some b) (some c) = .ok s2 ∧
      maptel_transform M debug s2 h (some a) (some buf) len = .ok (s2, store_cstr buf c) := by
  have h1 : ({ s with dictionaries := s.dictionaries.insert h ((∅ : dictionary_t).insert a b) } :
      Registry).dictionaries.lookup h = some ((∅ : dictionary_t).insert a b) :=
    Finmap.lookup_insert _
  refine ⟨_, _, maptel_insert_ok M debug s h ∅ a b hh ha hb,
    maptel_insert_ok M debug _ h ((∅ : dictionary_t).insert a b) b c h1 hb hc, ?_⟩
  have hla : (((∅ : dictionary_t).insert a b).insert b c).lookup a = some b := by
    rw [Finmap.lookup_insert_of_ne _ hab, Finmap.lookup_insert]
  have hlb : (((∅ : dictionary_t).insert a b).insert b c).lookup b = some c :=
    Finmap.lookup_insert _
  have hlc : (((∅ : dictionary_t).insert a b).insert b c).lookup c = none := by
    rw [Finmap.lookup_insert_of_ne _ (Ne.symm hbc), Finmap.lookup_insert_of_ne _ (Ne.symm hac),
      Finmap.lookup_empty]
  apply maptel_transform_ok M debug _ h (((∅ : dictionary_t).insert a b).insert b c) a c buf len
    (Finmap.lookup_insert _) ha _ hlen hbuf
  apply chain_walk_of_end _ a c 2 _ hlc
  show ((some a).bind _).bind _ = some c
  simp only [Option.some_bind, hla, hlb]

theorem maptel_transform_two_step_chain_witness :
    ∃ s1 s2, maptel_insert 22 true fresh_registry 0 (some ['1']) (some ['2']) = .ok s1 ∧
      maptel_insert 22 true s1 0 (some ['2']) (some ['3']) = .ok s2 ∧
      maptel_transform 22 true s2 0 (some ['1']) (some sample_buffer) 4 =
        .ok (s2, store_cstr sample_buffer ['3']) :=
  maptel_transform_two_step_chain 22 true fresh_registry 0 ['1'] ['2'] ['3'] sample_buffer 4
    (by decide) (by decide) (by decide) (by decide) (by decide) (by decide) (by decide)
    (by decide) (by decide)

/-- C5: for a valid handle and valid numbers `a ≠ b` where `b` is not a key of
the dictionary of the handle: after `maptel_insert(h, a, b)` the call
`maptel_transform(h, a)` writes `b`. -/
theorem maptel_transform_single_step (M : Nat) (debug : Bool) (s : Registry)
    (h : dictionary_id_t) (d : dictionary_t) (a b buf : List Char) (len : Nat)
    (hh : s.dictionaries.lookup h = some d) (ha : is_tel_valid M (some a) = true)
    (hb : is_tel_valid M (some b) = true) (hab : a ≠ b) (hbd : b ∉ d)
    (hlen : b.length < len) (hbuf : b.length < buf.length) :
    ∃ s1, maptel_insert M debug s h (some a) (some b) = .ok s1 ∧
      maptel_transform M debug s1 h (some a) (some buf) len = .ok (s1, store_cstr buf b) := by
  refine ⟨_, maptel_insert_ok M debug s h d a b hh ha hb, ?_⟩
  have hla : (d.insert a b).lookup a = some b := Finmap.lookup_insert _
  have hlb : (d.insert a b).lookup b = none := by
    rw [Finmap.lookup_insert_of_ne _ (Ne.symm hab)]
    exact Finmap.lookup_eq_none.2 hbd
  apply maptel_transform_ok M debug _ h (d.insert a b) a b buf len
    (Finmap.lookup_insert _) ha _ hlen hbuf
  apply chain_walk_of_end _ a b 1 _ hlb
  show (some a).bind _ = some b
  simp only [Option.some_bind, hla]

theorem maptel_transform_single_step_witness :
    ∃ s1, maptel_insert 22 true sample_registry 0 (some ['5']) (some ['6']) = .ok s1 ∧
      maptel_transform 22 true s1 0 (some ['5']) (some sample_buffer) 4 =
        .ok (s1, store_cstr sample_buffer ['6']) :=
  maptel_transform_single_step 22 true sample_registry 0
    (((∅ : dictionary_t).insert ['1'] ['2']).insert ['2'] ['3']) ['5'] ['6'] sample_buffer 4
    (by decide) (by decide) (by decide) (by decide) (by decide) (by decide) (by decide)

/-! ## Insert and erase -/

/-- C6: on any registry state, for a valid handle and valid numbers `t`, `d1`,
`d2`: `maptel_insert(h, t, d1)` followed by `maptel_insert(h, t, d2)` leaves
exactly the state that `maptel_insert(h, t, d2)` alone leaves, and in it the
dictionary of `h` maps `t` to `d2`. -/
theorem maptel_insert_overwrites (M : Nat) (debug : Bool) (s : Registry) (h : dictionary_id_t)
    (d : dictionary_t) (t d1 d2 : List Char)
    (hh : s.dictionaries.lookup h = some d) (ht : is_tel_valid M (some t) = true)
    (h1 : is_tel_valid M (some d1) = true) (h2 : is_tel_valid M (some d2) = true) :
    ∃ s1 s2, maptel_insert M debug s h (some t) (some d1) = .ok s1 ∧
      maptel_insert M debug s1 h (some t) (some d2) = .ok s2 ∧
      maptel_insert M debug s h (some t) (some d2) = .ok s2 ∧
      ∃ e, s2.dictionaries.lookup h = some e ∧ e.lookup t = some d2 := by
  have hl : ({ s with dictionaries := s.dictionaries.insert h (d.insert t d1) } :
      Registry).dictionaries.lookup h = some (d.insert t d1) := Finmap.lookup_insert _
  refine ⟨_, _, maptel_insert_ok M debug s h d t d1 hh ht h1,
    maptel_insert_ok M debug _ h (d.insert t d1) t d2 hl ht h2, ?_,
    (d.insert t d1).insert t d2, Finmap.lookup_insert _, Finmap.lookup_insert _⟩
  rw [maptel_insert_ok M debug s h d t d2 hh ht h2]
  show Except.ok _ = Except.ok _
  simp only [Finmap.insert_insert]

theorem maptel_insert_overwrites_witness :
    ∃ s1 s2, maptel_insert 22 true sample_registry 0 (some ['1']) (some ['4']) = .ok s1 ∧
      maptel_insert 22 true s1 0 (some ['1']) (some ['5']) = .ok s2 ∧
      maptel_insert 22 true sample_registry 0 (some ['1']) (some ['5']) = .ok s2 ∧
      ∃ e, s2.dictionaries.lookup 0 = some e ∧ e.lookup ['1'] = some ['5'] :=
  maptel_insert_overwrites 22 true sample_registry 0
    (((∅ : dictionary_t).insert ['1'] ['2']).insert ['2'] ['3']) ['1'] ['4'] ['5']
    (by decide) (by decide) (by decide) (by decide)

/-- C7: for a valid handle and valid numbers `t` and `v`: after
`maptel_insert(h, t, v)` the dictionary of `h` maps `t` to `v`, and the lookup
of every other number in it is what it was before. -/
theorem maptel_insert_frame (M : Nat) (debug : Bool) (s : Registry) (h : dictionary_id_t)
    (d : dictionary_t) (t v : List Char)
    (hh : s.dictionaries.lookup h = some d) (ht : is_tel_valid M (some t) = true)
    (hv : is_tel_valid M (some v) = true) :
    ∃ s1 e, maptel_insert M debug s h (some t) (some v) = .ok s1 ∧
      s1.dictionaries.lookup h = some e ∧ e.lookup t = some v ∧
      ∀ x, x ≠ t → e.lookup x = d.lookup x :=
  ⟨_, d.insert t v, maptel_insert_ok M debug s h d t v hh ht hv, Finmap.lookup_insert _,
    Finmap.lookup_insert _, fun _ hx => Finmap.lookup_insert_of_ne _ hx⟩

theorem maptel_insert_frame_witness :
    ∃ s1 e, maptel_insert 22 true sample_registry 0 (some ['2']) (some ['9']) = .ok s1 ∧
      s1.dictionaries.lookup 0 = some e ∧ e.lookup ['2'] = some ['9'] ∧
      ∀ x, x ≠ ['2'] → e.lookup x =
        (((∅ : dictionary_t).insert ['1'] ['2']).insert ['2'] ['3']).lookup x :=
  maptel_insert_frame 22 true sample_registry 0
    (((∅ : dictionary_t).insert ['1'] ['2']).insert ['2'] ['3']) ['2'] ['9']
    (by decide) (by decide) (by decide)

/-- C8: for a valid handle and a valid number `t`: `maptel_erase(h, t)` leaves
`t` without a mapping and the lookup of every other number unchanged, and
`maptel_transform(h, t)` afterwards writes `t`; when `t` had no mapping the
call succeeds and leaves the whole state unchanged; and on a dictionary where
`t` had no mapping, `maptel_insert(h, t, v)` followed by `maptel_erase(h, t)`
gives the original state back. -/
theorem maptel_erase_contract (M : Nat) (debug : Bool) (s : Registry) (h : dictionary_id_t)
    (d : dictionary_t) (t : List Char)
    (hh : s.dictionaries.lookup h = some d) (ht : is_tel_valid M (some t) = true) :
    (∃ s1 e, maptel_erase M debug s h (some t) = .ok s1 ∧
      s1.dictionaries.lookup h = some e ∧ e.lookup t = none ∧
      (∀ x, x ≠ t → e.lookup x = d.lookup x) ∧
      ∀ buf len, t.length < len → t.length < buf.length →
        maptel_transform M debug s1 h (some t) (some buf) len = .ok (s1, store_cstr buf t)) ∧
    (t ∉ d → maptel_erase M debug s h (some t) = .ok s) ∧
    (t ∉ d → ∀ v, is_tel_valid M (some v) = true →
      ∃ s1, maptel_insert M debug s h (some t) (some v) = .ok s1 ∧
        maptel_erase M debug s1 h (some t) = .ok s) := by
  refine ⟨?_, ?_, ?_⟩
  · have key : ∀ s1 e, s1.dictionaries.lookup h = some e → e.lookup t = none →
        ∀ buf len, t.length < len → t.length < buf.length →
        maptel_transform M debug s1 h (some t) (some buf) len = .ok (s1, store_cstr buf t) :=
      fun s1 e h1 h2 buf len hlen hbuf =>
        maptel_transform_ok M debug s1 h e t t buf len h1 ht
          (chain_walk_of_end e t t 0 rfl h2) hlen hbuf
    by_cases hm : t ∈ d
    · refine ⟨_, d.erase t, ?_, Finmap.lookup_insert _, Finmap.lookup_erase _ _,
        fun _ hx => Finmap.lookup_erase_ne hx,
        key { s with dictionaries := s.dictionaries.insert h (d.erase t) } (d.erase t)
          (Finmap.lookup_insert _) (Finmap.lookup_erase _ _)⟩
      rw [maptel_erase_ok M debug s h d t hh ht, if_pos hm]
    · refine ⟨s, d, ?_, hh, Finmap.lookup_eq_none.2 hm, fun _ _ => rfl,
        key s d hh (Finmap.lookup_eq_none.2 hm)⟩
      rw [maptel_erase_ok M debug s h d t hh ht, if_neg hm]
  · intro hm
    rw [maptel_erase_ok M debug s h d t hh ht, if_neg hm]
  · intro hm v hv
    refine ⟨_, maptel_insert_ok M debug s h d t v hh ht hv, ?_⟩
    rw [maptel_erase_ok M debug _ h (d.insert t v) t (Finmap.lookup_insert _) ht,
      if_pos (Finmap.mem_of_lookup_eq_some (Finmap.lookup_insert _))]
    show Except.ok _ = Except.ok _
    simp only [Finmap.insert_insert, erase_insert_of_not_mem hm, insert_lookup_self hh]

theorem maptel_erase_contract_witness :
    (∃ s1 e, maptel_erase 22 true sample_registry 0 (some ['1']) = .ok s1 ∧
      s1.dictionaries.lookup 0 = some e ∧ e.lookup ['1'] = none ∧
      (∀ x, x ≠ ['1'] → e.lookup x =
        (((∅ : dictionary_t).insert ['1'] ['2']).insert ['2'] ['3']).lookup x) ∧
      ∀ buf len, ['1'].length < len → ['1'].length < buf.length →
        maptel_transform 22 true s1 0 (some ['1']) (some buf) len =
          .ok (s1, store_cstr buf ['1'])) ∧
    (['1'] ∉ ((∅ : dictionary_t).insert ['1'] ['2']).insert ['2'] ['3'] →
      maptel_erase 22 true sample_registry 0 (some ['1']) = .ok sample_registry) ∧
    (['1'] ∉ ((∅ : dictionary_t).insert ['1'] ['2']).insert ['2'] ['3'] →
      ∀ v, is_tel_valid 22 (some v) = true →
      ∃ s1, maptel_insert 22 true sample_registry 0 (some ['1']) (some v) = .ok s1 ∧
        maptel_erase 22 true s1 0 (some ['1']) = .ok sample_registry) :=
  maptel_erase_contract 22 true sample_registry 0
    (((∅ : dictionary_t).insert ['1'] ['2']).insert ['2'] ['3']) ['1'] (by decide) (by decide)

/-! ## Handles -/

/-- What `maptel_transform` writes depends on the state only through the
dictionary found under the handle. -/
theorem maptel_transform_congr (M : Nat) (debug : Bool) (s s1 : Registry) (h : dictionary_id_t)
    (hl : s1.dictionaries.lookup h = s.dictionaries.lookup h) (x : Option CStr)
    (buf : Option (List Char)) (len : Nat) :
    (maptel_transform M debug s1 h x buf len).map Prod.snd =
      (maptel_transform M debug s h x buf len).map Prod.snd := by
  unfold maptel_transform
  rw [hl]
  repeat' split
  all_goals rfl

/-- The call `maptel_transform` returns the state it was given. -/
theorem maptel_transform_state (M : Nat) (debug : Bool) (s : Registry) (h : dictionary_id_t)
    (x : Option CStr) (buf : Option (List Char)) (len : Nat) (r : Registry × List Char)
    (hr : maptel_transform M debug s h x buf len = .ok r) : r.1 = s := by
  unfold maptel_transform at hr
  repeat' split at hr
  all_goals first
    | (cases hr; rfl)
    | cases hr

/-- C9: for two distinct valid handles `h1` and `h2`: `maptel_insert`,
`maptel_erase` and `maptel_delete` on `h1` leave `h2` valid with the same
dictionary, so that every `maptel_transform` on `h2` writes what it wrote
before; and `maptel_transform` on any handle returns the state unchanged. -/
theorem handle_isolation (M : Nat) (debug : Bool) (s : Registry) (h1 h2 : dictionary_id_t)
    (d1 d2 : dictionary_t) (a b : List Char) (hne : h1 ≠ h2)
    (hh1 : s.dictionaries.lookup h1 = some d1) (hh2 : s.dictionaries.lookup h2 = some d2)
    (ha : is_tel_valid M (some a) = true) (hb : is_tel_valid M (some b) = true) :
    (∃ s1, maptel_insert M debug s h1 (some a) (some b) = .ok s1 ∧
      s1.dictionaries.lookup h2 = some d2 ∧
      ∀ x buf len, (maptel_transform M debug s1 h2 x buf len).map Prod.snd =
        (maptel_transform M debug s h2 x buf len).map Prod.snd) ∧
    (∃ s1, maptel_erase M debug s h1 (some a) = .ok s1 ∧
      s1.dictionaries.lookup h2 = some d2 ∧
      ∀ x buf len, (maptel_transform M debug s1 h2 x buf len).map Prod.snd =
        (maptel_transform M debug s h2 x buf len).map Prod.snd) ∧
    (∃ s1, maptel_delete debug s h1 = .ok s1 ∧
      s1.dictionaries.lookup h2 = some d2 ∧
      ∀ x buf len, (maptel_transform M debug s1 h2 x buf len).map Prod.snd =
        (maptel_transform M debug s h2 x buf len).map Prod.snd) ∧
    (∀ h x buf len r, maptel_transform M debug s h x buf len = .ok r → r.1 = s) := by
  have hne2 : h2 ≠ h1 := Ne.symm hne
  have key : ∀ s1 : Registry, s1.dictionaries.lookup h2 = s.dictionaries.lookup h2 →
      s1.dictionaries.lookup h2 = some d2 ∧
      ∀ x buf len, (maptel_transform M debug s1 h2 x buf len).map Prod.snd =
        (maptel_transform M debug s h2 x buf len).map Prod.snd :=
    fun s1 hl => ⟨hl.trans hh2, maptel_transform_congr M debug s s1 h2 hl⟩
  refine ⟨⟨_, maptel_insert_ok M debug s h1 d1 a b hh1 ha hb, key _ ?_⟩,
    ⟨_, maptel_erase_ok M debug s h1 d1 a hh1 ha, key _ ?_⟩,
    ⟨{ s with dictionaries := s.dictionaries.erase h1 }, ?_, key _ ?_⟩,
    fun h x buf len r hr => maptel_transform_state M debug s h x buf len r hr⟩
  · exact Finmap.lookup_insert_of_ne _ hne2
  · by_cases hm : a ∈ d1
    · rw [if_pos hm]; exact Finmap.lookup_insert_of_ne _ hne2
    · rw [if_neg hm]
  · simp [maptel_delete, hh1]
  · exact Finmap.lookup_erase_ne hne2

theorem handle_isolation_witness :
    (∃ s1, maptel_insert 22 true two_registry 0 (some ['1']) (some ['2']) = .ok s1 ∧
      s1.dictionaries.lookup 1 = some ((∅ : dictionary_t).insert ['7'] ['8']) ∧
      ∀ x buf len, (maptel_transform 22 true s1 1 x buf len).map Prod.snd =
        (maptel_transform 22 true two_registry 1 x buf len).map Prod.snd) ∧
    (∃ s1, maptel_erase 22 true two_registry 0 (some ['1']) = .ok s1 ∧
      s1.dictionaries.lookup 1 = some ((∅ : dictionary_t).insert ['7'] ['8']) ∧
      ∀ x buf len, (maptel_transform 22 true s1 1 x buf len).map Prod.snd =
        (maptel_transform 22 true two_registry 1 x buf len).map Prod.snd) ∧
    (∃ s1, maptel_delete true two_registry 0 = .ok s1 ∧
      s1.dictionaries.lookup 1 = some ((∅ : dictionary_t).insert ['7'] ['8']) ∧
      ∀ x buf len, (maptel_transform 22 true s1 1 x buf len).map Prod.snd =
        (maptel_transform 22 true two_registry 1 x buf len).map Prod.snd) ∧
    (∀ h x buf len r, maptel_transform 22 true two_registry h x buf len = .ok r →
      r.1 = two_registry) :=
  handle_isolation 22 true two_registry 0 1 ((∅ : dictionary_t).insert ['1'] ['3'])
    ((∅ : dictionary_t).insert ['7'] ['8']) ['1'] ['2'] (by decide) (by decide) (by decide)
    (by decide) (by decide)

/-- The handle `maptel_create` returns, `id_g - 1` after `id_g++`, is the old
value of the counter. -/
theorem create_handle_eq (x : Nat) :
    ((x + 1) % ULONG_MODULUS + ULONG_MODULUS - 1) % ULONG_MODULUS = x % ULONG_MODULUS := by
  unfold ULONG_MODULUS
  omega

theorem counter_shift (x i : Nat) :
    ((x + 1) % ULONG_MODULUS + i) % ULONG_MODULUS = (x + (i + 1)) % ULONG_MODULUS := by
  unfold ULONG_MODULUS
  omega

theorem created_handles_append (a b : List Ret) :
    created_handles (a ++ b) = created_handles a ++ created_handles b := by
  induction a with
  | nil => rfl
  | cons r a ih =>
    cases r <;> simp [created_handles, ih]

theorem run_append (M : Nat) (debug : Bool) (ops1 ops2 : List Op) :
    ∀ (s s1 s2 : Registry) (rs1 rs2 : List Ret),
      run M debug s ops1 = .ok (s1, rs1) → run M debug s1 ops2 = .ok (s2, rs2) →
      run M debug s (ops1 ++ ops2) = .ok (s2, rs1 ++ rs2) := by
  induction ops1 with
  | nil =>
    intro s s1 s2 rs1 rs2 h1 h2
    cases h1
    exact h2
  | cons op ops ih =>
    intro s s1 s2 rs1 rs2 h1 h2
    simp only [run, List.cons_append, List.append_eq] at h1 ⊢
    cases hstep : step M debug s op with
    | error e => rw [hstep] at h1; cases h1
    | ok p =>
      obtain ⟨s0, r⟩ := p
      rw [hstep] at h1
      simp only at h1 ⊢
      cases hrest : run M debug s0 ops with
      | error e => rw [hrest] at h1; cases h1
      | ok q =>
        obtain ⟨s3, rs3⟩ := q
        rw [hrest] at h1
        simp only at h1
        cases h1
        rw [ih s0 s1 s2 rs3 rs2 hrest h2]
        rfl

/-- Every call but `maptel_create` keeps the counter and returns no handle;
`maptel_create` returns the counter and increments it. -/
theorem step_counter (M : Nat) (debug : Bool) (s s1 : Registry) (op : Op) (r : Ret)
    (h : step M debug s op = .ok (s1, r)) :
    (created_handles [r] = [s.id_g % ULONG_MODULUS] ∧
        s1.id_g = (s.id_g + 1) % ULONG_MODULUS) ∨
      (created_handles [r] = [] ∧ s1.id_g = s.id_g) := by
  cases op with
  | create =>
    left
    simp only [step, maptel_create] at h
    cases h
    exact ⟨by simp only [created_handles, create_handle_eq], rfl⟩
  | delete id =>
    right
    simp only [step, maptel_delete] at h
    cases hl : s.dictionaries.lookup id with
    | none => rw [hl] at h; cases debug <;> cases h
    | some d => rw [hl] at h; cases h; exact ⟨rfl, rfl⟩
  | insert id a b =>
    right
    simp only [step, maptel_insert] at h
    repeat' split at h
    all_goals first
      | (cases h; exact ⟨rfl, rfl⟩)
      | cases h
  | erase id a =>
    right
    simp only [step, maptel_erase] at h
    repeat' split at h
    all_goals first
      | (cases h; exact ⟨rfl, rfl⟩)
      | cases h
  | transform id a buf len =>
    right
    simp only [step] at h
    cases ht : maptel_transform M debug s id a buf len with
    | error e => rw [ht] at h; cases h
    | ok p =>
      rw [ht] at h
      cases h
      exact ⟨rfl, congrArg Registry.id_g (maptel_transform_state M debug s id a buf len p ht)⟩

/-- From any state, the handles created by a run are the successive values
of the counter. -/
theorem run_created_handles (M : Nat) (debug : Bool) (ops : List Op) :
    ∀ (s s1 : Registry) (rs : List Ret), run M debug s ops = .ok (s1, rs) →
      created_handles rs = (List.range (created_handles rs).length).map
        (fun i => (s.id_g + i) % ULONG_MODULUS) := by
  induction ops with
  | nil =>
    intro s s1 rs h
    cases h
    rfl
  | cons op ops ih =>
    intro s s1 rs h
    simp only [run] at h
    cases hstep : step M debug s op with
    | error e => rw [hstep] at h; cases h
    | ok p =>
      obtain ⟨s0, r⟩ := p
      rw [hstep] at h
      simp only at h
      cases hrest : run M debug s0 ops with
      | error e => rw [hrest] at h; cases h
      | ok q =>
        obtain ⟨s3, rs3⟩ := q
        rw [hrest] at h
        simp only at h
        cases h
        have hcons : created_handles (r :: rs3) = created_handles [r] ++ created_handles rs3 :=
          created_handles_append [r] rs3
        have ih1 := ih s0 s1 rs3 hrest
        rcases step_counter M debug s s0 op r hstep with ⟨hr, hid⟩ | ⟨hr, hid⟩
        · rw [hcons, hr, List.singleton_append, List.length_cons, List.range_succ_eq_map,
            List.map_cons, List.map_map]
          congr 1
          rw [ih1, List.length_map, List.length_range]
          apply List.map_congr_left
          intro i _
          simp only [Function.comp, hid]
          exact counter_shift s.id_g i
        · rw [hcons, hr, List.nil_append, ih1, List.length_map, List.length_range, hid]

/-- C10 (amended): in every run from the initial state the `n`-th
`maptel_create` returns `(n - 1) mod 2^64`, whatever calls come in between;
as long as at most `2^64` dictionaries have been created the handles are
`0, 1, 2, ...`, strictly increasing by one, so that none is returned twice. -/
theorem create_handles_count_mod (M : Nat) (debug : Bool) (ops : List Op) (s : Registry)
    (rs : List Ret) (hrun : run M debug Registry.initial ops = .ok (s, rs)) :
    created_handles rs =
        (List.range (created_handles rs).length).map (fun i => i % ULONG_MODULUS) ∧
      ((created_handles rs).length ≤ ULONG_MODULUS →
        created_handles rs = List.range (created_handles rs).length ∧
        (created_handles rs).Nodup) := by
  have h := run_created_handles M debug ops Registry.initial s rs hrun
  have h0 : Registry.initial.id_g = 0 := rfl
  simp only [h0, Nat.zero_add] at h
  refine ⟨h, fun hle => ?_⟩
  have h2 : created_handles rs = List.range (created_handles rs).length := by
    conv_lhs => rw [h]
    conv_rhs => rw [← List.map_id (List.range (created_handles rs).length)]
    apply List.map_congr_left
    intro i hi
    exact Nat.mod_eq_of_lt (Nat.lt_of_lt_of_le (List.mem_range.1 hi) hle)
  refine ⟨h2, ?_⟩
  rw [h2]
  exact List.nodup_range _

theorem create_handles_count_mod_witness :
    created_handles [Ret.handle 0, Ret.unit, Ret.handle 1, Ret.unit, Ret.handle 2,
          Ret.buffer ['5', NUL, 'x', 'x']] =
        (List.range (created_handles [Ret.handle 0, Ret.unit, Ret.handle 1, Ret.unit,
          Ret.handle 2, Ret.buffer ['5', NUL, 'x', 'x']]).length).map
            (fun i => i % ULONG_MODULUS) ∧
      ((created_handles [Ret.handle 0, Ret.unit, Ret.handle 1, Ret.unit, Ret.handle 2,
          Ret.buffer ['5', NUL, 'x', 'x']]).length ≤ ULONG_MODULUS →
        created_handles [Ret.handle 0, Ret.unit, Ret.handle 1, Ret.unit, Ret.handle 2,
          Ret.buffer ['5', NUL, 'x', 'x']] =
          List.range (created_handles [Ret.handle 0, Ret.unit, Ret.handle 1, Ret.unit,
            Ret.handle 2, Ret.buffer ['5', NUL, 'x', 'x']]).length ∧
        (created_handles [Ret.handle 0, Ret.unit, Ret.handle 1, Ret.unit, Ret.handle 2,
          Ret.buffer ['5', NUL, 'x', 'x']]).Nodup) :=
  create_handles_count_mod 22 true sample_calls
    ⟨Finmap.insert 2 ∅ (Finmap.erase 0 (Finmap.insert 1 ∅ (Finmap.insert 0
      ((∅ : dictionary_t).insert ['1'] ['2'])
      (Finmap.insert 0 ∅ (∅ : Finmap (fun _ : dictionary_id_t => dictionary_t)))))), 3⟩
    [Ret.handle 0, Ret.unit, Ret.handle 1, Ret.unit, Ret.handle 2,
      Ret.buffer ['5', NUL, 'x', 'x']] rfl

theorem created_handles_results (n : Nat) :
    created_handles (create_delete_results n) = List.range n := by
  induction n with
  | zero => rfl
  | succ n ih =>
    rw [create_delete_results, created_handles_append, ih, List.range_succ]
    rfl

/-- A round of `create_delete_rounds` leaves the registry empty and the
counter one further. -/
theorem run_create_delete_rounds (M : Nat) (debug : Bool) :
    ∀ n, n ≤ ULONG_MODULUS →
      run M debug Registry.initial (create_delete_rounds n) =
        .ok (⟨∅, n % ULONG_MODULUS⟩, create_delete_results n) := by
  intro n
  induction n with
  | zero =>
    intro _
    rfl
  | succ n ih =>
    intro hle
    have hlt : n < ULONG_MODULUS := hle
    have hn : n % ULONG_MODULUS = n := Nat.mod_eq_of_lt hlt
    apply run_append M debug _ _ _ _ _ _ _ (ih (Nat.le_of_lt hlt))
    rw [hn]
    have hcreate : maptel_create ⟨∅, n⟩ =
        (⟨Finmap.insert n ∅ ∅, (n + 1) % ULONG_MODULUS⟩, n) := by
      simp only [maptel_create, Finmap.not_mem_empty, if_false, create_handle_eq, hn]
    have herase : Finmap.erase n (Finmap.insert n (∅ : dictionary_t)
        (∅ : Finmap (fun _ : dictionary_id_t => dictionary_t))) = ∅ :=
      erase_insert_of_not_mem Finmap.not_mem_empty
    simp only [run, step, hcreate, maptel_delete, Finmap.lookup_insert, herase, Except.map]

/-- C10 (counterexample): `2^64` rounds of `maptel_create` and `maptel_delete`
followed by one more `maptel_create` run without fault, and the last
`maptel_create`, the `(2^64 + 1)`-th, returns the handle `0` that the first one
returned and that was deleted since, not `2^64`. -/
theorem create_handle_wraps :
    run 22 true Registry.initial (create_delete_rounds ULONG_MODULUS ++ [Op.create]) =
        .ok (fresh_registry, create_delete_results ULONG_MODULUS ++ [Ret.handle 0]) ∧
      created_handles (create_delete_results ULONG_MODULUS ++ [Ret.handle 0]) =
        List.range ULONG_MODULUS ++ [0] ∧
      List.range ULONG_MODULUS ++ [0] ≠ List.range (ULONG_MODULUS + 1) := by
  have hpos : 0 < ULONG_MODULUS := Nat.two_pow_pos 64
  have hone : (0 + 1) % ULONG_MODULUS = 1 :=
    Nat.mod_eq_of_lt (Nat.one_lt_two_pow (by decide))
  refine ⟨?_, ?_, ?_⟩
  · apply run_append 22 true _ _ _ _ _ _ _ (run_create_delete_rounds 22 true _ (le_refl _))
    rw [Nat.mod_self]
    have hcreate : maptel_create ⟨∅, 0⟩ = (fresh_registry, 0) := by
      have h0 := create_handle_eq 0
      rw [Nat.zero_mod] at h0
      simp only [maptel_create, Finmap.not_mem_empty, if_false, fresh_registry]
      rw [h0, hone]
    simp only [run, step, hcreate]
  · rw [created_handles_append, created_handles_results]
    rfl
  · rw [List.range_succ]
    intro h
    have h2 := List.append_cancel_left h
    simp only [List.cons.injEq, and_true] at h2
    omega

/-! ## Validation -/

theorem isDigit_iff (c : Char) : c.isDigit = true ↔ '0' ≤ c ∧ c ≤ '9' := by
  simp only [Char.isDigit, Bool.and_eq_true, decide_eq_true_eq]
  exact Iff.rfl

/-- The loop of `is_tel_valid` on a string no longer than the bound: it
runs to the end exactly when every character is a digit. -/
theorem is_tel_valid_loop_eq :
    ∀ (tel : List Char) (n i : Nat), tel.length ≤ n →
      is_tel_valid_loop tel n i =
        if ∀ c ∈ tel, c.isDigit = true then some (i + tel.length) else none := by
  intro tel
  induction tel with
  | nil =>
    intro n i _
    cases n <;> simp [is_tel_valid_loop]
  | cons c cs ih =>
    intro n i hle
    cases n with
    | zero => simp at hle
    | succ n =>
      have hle2 : cs.length ≤ n := by simpa using hle
      simp only [is_tel_valid_loop, ih n (i + 1) hle2, List.forall_mem_cons, List.length_cons]
      by_cases hc : c.isDigit = true
      · by_cases hall : ∀ c ∈ cs, c.isDigit = true
        · rw [if_pos hc, if_pos hall, if_pos ⟨hc, hall⟩, Nat.add_assoc, Nat.add_comm 1]
        · rw [if_pos hc, if_neg hall, if_neg (fun h => hall h.2)]
      · rw [if_neg hc, if_neg (fun h => hc h.1)]

/-- When `is_tel_valid` accepts. -/
theorem is_tel_valid_iff (M : Nat) (t : Option CStr) :
    is_tel_valid M t = true ↔
      ∃ cs, t = some cs ∧ 1 ≤ cs.length ∧ cs.length ≤ M ∧ ∀ c ∈ cs, c.isDigit = true := by
  cases t with
  | none => simp [is_tel_valid]
  | some tel =>
    simp only [is_tel_valid, Option.some.injEq, exists_eq_left']
    by_cases hlen : tel.length > M
    · rw [if_pos hlen]
      constructor
      · intro h; cases h
      · intro h; omega
    · rw [if_neg hlen, is_tel_valid_loop_eq tel M 0 (by omega)]
      by_cases hall : ∀ c ∈ tel, c.isDigit = true
      · rw [if_pos hall]
        by_cases h0 : tel.length = 0
        · simp [h0]
        · simp only [Nat.zero_add, h0, if_false, true_iff]
          exact ⟨by omega, by omega, hall⟩
      · rw [if_neg hall]
        constructor
        · intro h; cases h
        · intro h; exact absurd h.2.2 hall

/-- C13: `is_tel_valid` returns true exactly when the input is not null, its
length is between 1 and `TEL_NUM_MAX_LEN`, and every character is one of the
ASCII digits `'0'` to `'9'`. -/
theorem is_tel_valid_spec (M : Nat) (t : Option CStr) :
    is_tel_valid M t = true ↔
      ∃ cs, t = some cs ∧ 1 ≤ cs.length ∧ cs.length ≤ M ∧ ∀ c ∈ cs, '0' ≤ c ∧ c ≤ '9' := by
  rw [is_tel_valid_iff]
  constructor
  · rintro ⟨cs, h1, h2, h3, h4⟩
    exact ⟨cs, h1, h2, h3, fun c hc => (isDigit_iff c).1 (h4 c hc)⟩
  · rintro ⟨cs, h1, h2, h3, h4⟩
    exact ⟨cs, h1, h2, h3, fun c hc => (isDigit_iff c).2 (h4 c hc)⟩

/-- A null, empty or too long string, or one with a character that is not a
digit, is not accepted by `is_tel_valid`. -/
theorem is_tel_valid_false_of_invalid (M : Nat) (t : Option CStr)
    (hinv : t = none ∨ ∃ cs, t = some cs ∧
      (cs = [] ∨ M < cs.length ∨ ∃ c ∈ cs, ¬('0' ≤ c ∧ c ≤ '9'))) :
    is_tel_valid M t = false := by
  cases hv : is_tel_valid M t with
  | false => rfl
  | true =>
    exfalso
    obtain ⟨cs, h1, h2, h3, h4⟩ := (is_tel_valid_iff M t).1 hv
    rcases hinv with h | ⟨cs1, h5, h6⟩
    · rw [h] at h1; cases h1
    · rw [h5] at h1
      cases h1
      rcases h6 with h | h | ⟨c, hc, hnd⟩
      · rw [h] at h2; simp at h2
      · omega
      · exact hnd ((isDigit_iff c).1 (h4 c hc))

/-- C14: in the checked build, on any state, `maptel_insert` fails when its
source or its destination is invalid (null, empty, longer than
`TEL_NUM_MAX_LEN` or with a character that is not a digit), `maptel_erase` and
`maptel_transform` fail when their source is; the failure is the assertion
and no state is produced. -/
theorem invalid_number_rejected (M : Nat) (s : Registry) (id : dictionary_id_t)
    (t other : Option CStr) (buf : Option (List Char)) (len : Nat)
    (hinv : t = none ∨ ∃ cs, t = some cs ∧
      (cs = [] ∨ M < cs.length ∨ ∃ c ∈ cs, ¬('0' ≤ c ∧ c ≤ '9'))) :
    maptel_insert M true s id t other = .error .assertion ∧
      maptel_insert M true s id other t = .error .assertion ∧
      maptel_erase M true s id t = .error .assertion ∧
      maptel_transform M true s id t buf len = .error .assertion := by
  have hf := is_tel_valid_false_of_invalid M t hinv
  refine ⟨?_, ?_, ?_, ?_⟩
  · simp [maptel_insert, hf]
  · cases ho : is_tel_valid M other <;> simp [maptel_insert, hf, ho]
  · simp [maptel_erase, hf]
  · simp [maptel_transform, hf]

theorem invalid_number_rejected_witness :
    maptel_insert 22 true sample_registry 0 (some ['1', 'a']) (some ['2']) = .error .assertion ∧
      maptel_insert 22 true sample_registry 0 (some ['2']) (some ['1', 'a']) =
        .error .assertion ∧
      maptel_erase 22 true sample_registry 0 (some ['1', 'a']) = .error .assertion ∧
      maptel_transform 22 true sample_registry 0 (some ['1', 'a']) (some sample_buffer) 4 =
        .error .assertion :=
  invalid_number_rejected 22 sample_registry 0 (some ['1', 'a']) (some ['2'])
    (some sample_buffer) 4 (Or.inr ⟨['1', 'a'], rfl, Or.inr (Or.inr ⟨'a', by decide, by decide⟩)⟩)

/-- C15: in the checked build `maptel_delete(h)` fails exactly when `h` is not
a valid handle, and after a successful call `h` is not valid; `maptel_insert`,
`maptel_erase` and `maptel_transform` with valid numbers and a buffer fail on
a handle that is not valid. -/
theorem invalid_handle_rejected (M : Nat) (s : Registry) (h : dictionary_id_t) :
    ((∃ e, maptel_delete true s h = .error e) ↔ h ∉ s.dictionaries) ∧
      (∀ s1, maptel_delete true s h = .ok s1 → h ∉ s1.dictionaries) ∧
      (h ∉ s.dictionaries → ∀ a b : List Char,
        is_tel_valid M (some a) = true → is_tel_valid M (some b) = true →
        maptel_delete true s h = .error .assertion ∧
        maptel_insert M true s h (some a) (some b) = .error .assertion ∧
        maptel_erase M true s h (some a) = .error .assertion ∧
        ∀ buf len, maptel_transform M true s h (some a) (some buf) len = .error .assertion) := by
  refine ⟨?_, ?_, ?_⟩
  · cases hl : s.dictionaries.lookup h with
    | none =>
      have hm : h ∉ s.dictionaries := Finmap.lookup_eq_none.1 hl
      simp [maptel_delete, hl, hm]
    | some d =>
      have hm : h ∈ s.dictionaries := Finmap.mem_of_lookup_eq_some hl
      simp [maptel_delete, hl, hm]
  · intro s1 h1
    cases hl : s.dictionaries.lookup h with
    | none => simp [maptel_delete, hl] at h1
    | some d =>
      simp only [maptel_delete, hl] at h1
      cases h1
      exact Finmap.not_mem_erase_self
  · intro hm a b ha hb
    have hl := Finmap.lookup_eq_none.2 hm
    refine ⟨?_, ?_, ?_, ?_⟩
    · simp [maptel_delete, hl]
    · simp [maptel_insert, hl, ha, hb]
    · simp [maptel_erase, hl, ha]
    · intro buf len
      simp [maptel_transform, hl, ha]

theorem invalid_handle_rejected_witness :
    ((∃ e, maptel_delete true sample_registry 5 = .error e) ↔
        5 ∉ sample_registry.dictionaries) ∧
      (∀ s1, maptel_delete true sample_registry 5 = .ok s1 → 5 ∉ s1.dictionaries) ∧
      (5 ∉ sample_registry.dictionaries → ∀ a b : List Char,
        is_tel_valid 22 (some a) = true → is_tel_valid 22 (some b) = true →
        maptel_delete true sample_registry 5 = .error .assertion ∧
        maptel_insert 22 true sample_registry 5 (some a) (some b) = .error .assertion ∧
        maptel_erase 22 true sample_registry 5 (some a) = .error .assertion ∧
        ∀ buf len,
          maptel_transform 22 true sample_registry 5 (some a) (some buf) len =
            .error .assertion) :=
  invalid_handle_rejected 22 sample_registry 5

/-- What `store_cstr` leaves in the buffer. -/
theorem store_cstr_spec (buf r : List Char) (hr : r.length < buf.length) :
    (store_cstr buf r).length = buf.length ∧
      (∀ i, i < r.length → (store_cstr buf r)[i]? = r[i]?) ∧
      (store_cstr buf r)[r.length]? = some NUL ∧
      ∀ i, r.length < i → (store_cstr buf r)[i]? = buf[i]? := by
  unfold store_cstr
  refine ⟨?_, ?_, ?_, ?_⟩
  · simp only [List.length_append, List.length_cons, List.length_drop]
    omega
  · intro i hi
    rw [List.getElem?_append_left hi]
  · rw [List.getElem?_append_right (le_refl _), Nat.sub_self, List.getElem?_cons_zero]
  · intro i hi
    rw [List.getElem?_append_right (Nat.le_of_lt hi)]
    obtain ⟨k, hk⟩ : ∃ k, i - r.length = k + 1 := ⟨i - r.length - 1, by omega⟩
    rw [hk, List.getElem?_cons_succ, List.getElem?_drop]
    congr 1
    omega

/-- C16: for a valid handle and a valid `src`, with `r` the resolved number:
in the checked build `maptel_transform` fails on its capacity assertion
exactly when `len ≤ length r`; when `length r < len` (and the buffer has `len`
characters) it writes the characters of `r` to positions `0 .. length r - 1`,
the terminator to position `length r`, and no other position, so none at or
beyond `len`. -/
theorem maptel_transform_capacity (M : Nat) (s : Registry) (h : dictionary_id_t)
    (d : dictionary_t) (src r buf : List Char) (len : Nat)
    (hh : s.dictionaries.lookup h = some d) (hv : is_tel_valid M (some src) = true)
    (hr : chain_walk d src = some r) :
    (maptel_transform M true s h (some src) (some buf) len = .error .assertion ↔
        len ≤ r.length) ∧
      (r.length < len → len ≤ buf.length →
        ∃ out, maptel_transform M true s h (some src) (some buf) len = .ok (s, out) ∧
          out.length = buf.length ∧
          (∀ i, i < r.length → out[i]? = r[i]?) ∧
          out[r.length]? = some NUL ∧
          (∀ i, r.length < i → out[i]? = buf[i]?) ∧
          ∀ i, len ≤ i → out[i]? = buf[i]?) := by
  constructor
  · by_cases hlen : r.length < len
    · by_cases hbuf : r.length < buf.length
      · simp [maptel_transform, hh, hv, hr, hlen, hbuf]
      · simp [maptel_transform, hh, hv, hr, hlen, hbuf]
    · simp only [maptel_transform, hh, hv, hr, hlen]
      simp
      omega
  · intro hlen hcap
    have hbuf : r.length < buf.length := Nat.lt_of_lt_of_le hlen hcap
    obtain ⟨h1, h2, h3, h4⟩ := store_cstr_spec buf r hbuf
    exact ⟨store_cstr buf r, maptel_transform_ok M true s h d src r buf len hh hv hr hlen hbuf,
      h1, h2, h3, h4, fun i hi => h4 i (Nat.lt_of_lt_of_le hlen hi)⟩

theorem maptel_transform_capacity_witness :
    (maptel_transform 22 true sample_registry 0 (some ['1']) (some sample_buffer) 1 =
        .error .assertion ↔ 1 ≤ ['3'].length) ∧
      (['3'].length < 1 → 1 ≤ sample_buffer.length →
        ∃ out, maptel_transform 22 true sample_registry 0 (some ['1']) (some sample_buffer) 1 =
            .ok (sample_registry, out) ∧
          out.length = sample_buffer.length ∧
          (∀ i, i < ['3'].length → out[i]? = ['3'][i]?) ∧
          out[['3'].length]? = some NUL ∧
          (∀ i, ['3'].length < i → out[i]? = sample_buffer[i]?) ∧
          ∀ i, 1 ≤ i → out[i]? = sample_buffer[i]?) :=
  maptel_transform_capacity 22 sample_registry 0
    (((∅ : dictionary_t).insert ['1'] ['2']).insert ['2'] ['3']) ['1'] ['3'] sample_buffer 1
    (by decide) (by decide) (by decide)

/-! ## Termination and the loop contract -/

/-- More fuel does not change what the loop returns. -/
theorem transform_loop_mono (d : dictionary_t) (dst : List Char) :
    ∀ (fuel : Nat) (it : Option (List Char)) (src : List Char) (visited : Finset (List Char))
      (r : List Char), transform_loop d dst fuel it src visited = some r →
      ∀ k, transform_loop d dst (fuel + k) it src visited = some r := by
  intro fuel
  induction fuel with
  | zero =>
    intro it src visited r h k
    cases it with
    | none => rw [transform_loop_end] at h ⊢; exact h
    | some v => simp [transform_loop] at h
  | succ fuel ih =>
    intro it src visited r h k
    cases it with
    | none => rw [transform_loop_end] at h ⊢; exact h
    | some v =>
      rw [show fuel + 1 + k = (fuel + k) + 1 by omega]
      by_cases hv : v ∈ visited
      · simp only [transform_loop, if_pos hv] at h ⊢
        exact h
      · simp only [transform_loop, if_neg hv] at h ⊢
        exact ih _ _ _ _ h k

/-- The counting loop returns what the loop returns. -/
theorem transform_loop_count_fst (d : dictionary_t) (dst : List Char) :
    ∀ (fuel : Nat) (it : Option (List Char)) (src : List Char) (visited : Finset (List Char))
      (n : Nat), (transform_loop_count d dst fuel it src visited n).map Prod.fst =
        transform_loop d dst fuel it src visited := by
  intro fuel
  induction fuel with
  | zero =>
    intro it src visited n
    cases it <;> rfl
  | succ fuel ih =>
    intro it src visited n
    cases it with
    | none => rfl
    | some v =>
      by_cases hv : v ∈ visited
      · simp only [transform_loop_count, transform_loop, if_pos hv, Option.map_some']
      · simp only [transform_loop_count, transform_loop, if_neg hv]
        exact ih _ _ _ _

/-- The body of the loop runs at most once for every key not yet visited. -/
theorem transform_loop_count_le (d : dictionary_t) (dst : List Char) :
    ∀ (fuel : Nat) (src : List Char) (visited : Finset (List Char)) (n : Nat)
      (r : List Char) (m : Nat),
      src ∈ visited → (∀ x ∈ visited, x ≠ src → x ∈ d) →
      transform_loop_count d dst fuel (d.lookup src) src visited n = some (r, m) →
      m + visited.card ≤ n + d.keys.card + 1 := by
  intro fuel
  induction fuel with
  | zero =>
    intro src visited n r m hsrc hkeys h
    cases hl : d.lookup src with
    | none =>
      rw [hl] at h
      simp only [transform_loop_count, Option.some.injEq, Prod.mk.injEq] at h
      have hsub : visited.erase src ⊆ d.keys := by
        intro x hx
        rw [Finmap.mem_keys]
        exact hkeys x (Finset.mem_of_mem_erase hx) (Finset.ne_of_mem_erase hx)
      have h1 := Finset.card_le_card hsub
      rw [Finset.card_erase_of_mem hsrc] at h1
      omega
    | some v =>
      rw [hl] at h
      simp [transform_loop_count] at h
  | succ fuel ih =>
    intro src visited n r m hsrc hkeys h
    cases hl : d.lookup src with
    | none =>
      rw [hl] at h
      simp only [transform_loop_count, Option.some.injEq, Prod.mk.injEq] at h
      have hsub : visited.erase src ⊆ d.keys := by
        intro x hx
        rw [Finmap.mem_keys]
        exact hkeys x (Finset.mem_of_mem_erase hx) (Finset.ne_of_mem_erase hx)
      have h1 := Finset.card_le_card hsub
      rw [Finset.card_erase_of_mem hsrc] at h1
      omega
    | some v =>
      rw [hl] at h
      have hsub : visited ⊆ d.keys := by
        intro x hx
        rw [Finmap.mem_keys]
        by_cases hxs : x = src
        · subst hxs; exact Finmap.mem_of_lookup_eq_some hl
        · exact hkeys x hx hxs
      have h1 := Finset.card_le_card hsub
      by_cases hv : v ∈ visited
      · simp only [transform_loop_count, if_pos hv, Option.some.injEq, Prod.mk.injEq] at h
        omega
      · simp only [transform_loop_count, if_neg hv] at h
        have h2 := ih v (insert v visited) (n + 1) r m (Finset.mem_insert_self _ _) (by
          intro x hx hxv
          rcases Finset.mem_insert.1 hx with hx1 | hx1
          · exact absurd hx1 hxv
          · rw [← Finmap.mem_keys]; exact hsub hx1) h
        rw [Finset.card_insert_of_not_mem hv] at h2
        omega

/-- C17: for every dictionary `d` and every `src` the chain walk of
`maptel_transform` returns, given room for `|d|` executions of the loop body
or more, and it executes the body at most `|d|` times, that is at most
`|d| + 1` lookups in `d`. -/
theorem chain_walk_terminates (d : dictionary_t) (src : List Char) (fuel : Nat)
    (hfuel : d.keys.card ≤ fuel) :
    ∃ r m, transform_loop_count d src fuel (d.lookup src) src {src} 0 = some (r, m) ∧
      m ≤ d.keys.card ∧ m + 1 ≤ d.keys.card + 1 ∧ chain_walk d src = some r := by
  obtain ⟨r, hr⟩ := chain_walk_isSome d src
  have hmono := transform_loop_mono d src d.keys.card (d.lookup src) src {src} r hr
    (fuel - d.keys.card)
  rw [show d.keys.card + (fuel - d.keys.card) = fuel by omega] at hmono
  have hfst := transform_loop_count_fst d src fuel (d.lookup src) src {src} 0
  rw [hmono] at hfst
  cases hc : transform_loop_count d src fuel (d.lookup src) src {src} 0 with
  | none => rw [hc] at hfst; cases hfst
  | some p =>
    obtain ⟨r1, m⟩ := p
    rw [hc] at hfst
    simp only [Option.map_some', Option.some.injEq] at hfst
    subst hfst
    have hle := transform_loop_count_le d src fuel src {src} 0 r1 m
      (Finset.mem_singleton_self _)
      (fun x hx hxs => absurd (Finset.mem_singleton.1 hx) hxs) hc
    rw [Finset.card_singleton] at hle
    exact ⟨r1, m, rfl, by omega, by omega, hr⟩

theorem chain_walk_terminates_witness :
    ∃ r m, transform_loop_count (((∅ : dictionary_t).insert ['1'] ['2']).insert ['2'] ['3'])
        ['1'] 2 ((((∅ : dictionary_t).insert ['1'] ['2']).insert ['2'] ['3']).lookup ['1'])
        ['1'] {['1']} 0 = some (r, m) ∧
      m ≤ (((∅ : dictionary_t).insert ['1'] ['2']).insert ['2'] ['3']).keys.card ∧
      m + 1 ≤ (((∅ : dictionary_t).insert ['1'] ['2']).insert ['2'] ['3']).keys.card + 1 ∧
      chain_walk (((∅ : dictionary_t).insert ['1'] ['2']).insert ['2'] ['3']) ['1'] = some r :=
  chain_walk_terminates (((∅ : dictionary_t).insert ['1'] ['2']).insert ['2'] ['3']) ['1'] 2
    (by decide)

/-- The loop contract of the specification follows the loop of the code: an
iteration of the contract from `current` is the loop of the code entered
with the iterator `find(current)`, and returns what it returns. -/
theorem spec_loop_of_transform_loop (d : dictionary_t) (src : List Char) :
    ∀ (fuel : Nat) (current : List Char) (visited : Finset (List Char)) (r : List Char),
      transform_loop d src fuel (d.lookup current) current visited = some r →
      spec_loop d src (fuel + 1) current visited = some r := by
  intro fuel
  induction fuel with
  | zero =>
    intro current visited r h
    cases hl : d.lookup current with
    | none =>
      rw [hl, transform_loop_end] at h
      simp only [spec_loop, hl]
      exact h
    | some v =>
      rw [hl] at h
      simp [transform_loop] at h
  | succ fuel ih =>
    intro current visited r h
    cases hl : d.lookup current with
    | none =>
      rw [hl, transform_loop_end] at h
      simp only [spec_loop, hl]
      exact h
    | some v =>
      rw [hl] at h
      rw [spec_loop, hl]
      by_cases hv : v ∈ visited
      · simp only [transform_loop, if_pos hv] at h ⊢
        exact h
      · simp only [transform_loop, if_neg hv] at h ⊢
        exact ih v (insert v visited) r h

/-- C18: for every dictionary and every `src`, the loop of `maptel_transform`
and the loop contract of the specification, given room for more than `|d|`
iterations, return the same value, and they do return one. -/
theorem chain_walk_refines_spec (d : dictionary_t) (src : List Char) (fuel : Nat)
    (hfuel : d.keys.card < fuel) :
    spec_resolve d src fuel = chain_walk d src ∧ ∃ r, chain_walk d src = some r := by
  obtain ⟨r, hr⟩ := chain_walk_isSome d src
  refine ⟨?_, r, hr⟩
  have hmono := transform_loop_mono d src d.keys.card (d.lookup src) src {src} r hr
    (fuel - 1 - d.keys.card)
  rw [show d.keys.card + (fuel - 1 - d.keys.card) = fuel - 1 by omega] at hmono
  have hspec := spec_loop_of_transform_loop d src (fuel - 1) src {src} r hmono
  rw [show fuel - 1 + 1 = fuel by omega] at hspec
  rw [hr]
  exact hspec

theorem chain_walk_refines_spec_witness :
    spec_resolve (((∅ : dictionary_t).insert ['1'] ['2']).insert ['2'] ['1']) ['1'] 3 =
        chain_walk (((∅ : dictionary_t).insert ['1'] ['2']).insert ['2'] ['1']) ['1'] ∧
      ∃ r, chain_walk (((∅ : dictionary_t).insert ['1'] ['2']).insert ['2'] ['1']) ['1'] =
        some r :=
  chain_walk_refines_spec (((∅ : dictionary_t).insert ['1'] ['2']).insert ['2'] ['1']) ['1'] 3
    (by decide)

/-! ## What a successful call did -/

theorem maptel_delete_inv (debug : Bool) (s s1 : Registry) (id : dictionary_id_t)
    (h : maptel_delete debug s id = .ok s1) :
    id ∈ s.dictionaries ∧ s1 = { s with dictionaries := s.dictionaries.erase id } := by
  cases hl : s.dictionaries.lookup id with
  | none =>
    simp only [maptel_delete, hl] at h
    cases debug <;> cases h
  | some d =>
    simp only [maptel_delete, hl] at h
    cases h
    exact ⟨Finmap.mem_of_lookup_eq_some hl, rfl⟩

theorem maptel_insert_inv (M : Nat) (debug : Bool) (s s1 : Registry) (id : dictionary_id_t)
    (a b : Option CStr) (h : maptel_insert M debug s id a b = .ok s1) :
    ∃ d src dst, a = some src ∧ b = some dst ∧ s.dictionaries.lookup id = some d ∧
      (debug = true → is_tel_valid M (some src) = true ∧ is_tel_valid M (some dst) = true) ∧
      s1 = { s with dictionaries := s.dictionaries.insert id (d.insert src dst) } := by
  unfold maptel_insert at h
  split at h
  · cases h
  · split at h
    · cases h
    · rename_i h1 h2
      cases hl : s.dictionaries.lookup id with
      | none =>
        rw [hl] at h
        cases debug <;> cases h
      | some d =>
        rw [hl] at h
        cases a with
        | none => cases b <;> cases h
        | some src =>
          cases b with
          | none => cases h
          | some dst =>
            cases h
            refine ⟨d, src, dst, rfl, rfl, rfl, ?_, rfl⟩
            intro hd
            subst hd
            simp only [Bool.true_and, Bool.not_eq_true', Bool.not_eq_false] at h1 h2
            exact ⟨h1, h2⟩

theorem maptel_erase_inv (M : Nat) (debug : Bool) (s s1 : Registry) (id : dictionary_id_t)
    (a : Option CStr) (h : maptel_erase M debug s id a = .ok s1) :
    ∃ d src, a = some src ∧ s.dictionaries.lookup id = some d ∧
      s1 = if src ∈ d then { s with dictionaries := s.dictionaries.insert id (d.erase src) }
        else s := by
  unfold maptel_erase at h
  split at h
  · cases h
  · cases a with
    | none => cases h
    | some src =>
      cases hl : s.dictionaries.lookup id with
      | none =>
        simp only [hl] at h
        cases debug <;> cases h
      | some d =>
        simp only [hl] at h
        refine ⟨d, src, rfl, rfl, ?_⟩
        cases hv : d.lookup src with
        | none =>
          rw [hv] at h
          cases h
          rw [if_neg (Finmap.lookup_eq_none.1 hv)]
        | some v =>
          rw [hv] at h
          cases h
          rw [if_pos (Finmap.mem_of_lookup_eq_some hv)]

/-! ## Validity of the stored numbers -/

theorem step_entries_valid (M : Nat) (s s1 : Registry) (op : Op) (r : Ret)
    (hs : entries_valid M s) (h : step M true s op = .ok (s1, r)) : entries_valid M s1 := by
  cases op with
  | create =>
    simp only [step, maptel_create] at h
    cases h
    intro h0 d k v hl hk
    by_cases hm : s.id_g ∈ s.dictionaries
    · simp only [if_pos hm] at hl
      exact hs h0 d k v hl hk
    · simp only [if_neg hm] at hl
      by_cases hh : h0 = s.id_g
      · subst hh
        rw [Finmap.lookup_insert] at hl
        cases hl
        rw [Finmap.lookup_empty] at hk
        cases hk
      · rw [Finmap.lookup_insert_of_ne _ hh] at hl
        exact hs h0 d k v hl hk
  | delete id =>
    simp only [step] at h
    cases hd : maptel_delete true s id with
    | error e => rw [hd] at h; cases h
    | ok s2 =>
      rw [hd] at h
      cases h
      obtain ⟨_, rfl⟩ := maptel_delete_inv true s s1 id hd
      intro h0 d k v hl hk
      by_cases hh : h0 = id
      · subst hh
        simp only [Finmap.lookup_erase] at hl
        cases hl
      · simp only [Finmap.lookup_erase_ne hh] at hl
        exact hs h0 d k v hl hk
  | insert id a b =>
    simp only [step] at h
    cases hd : maptel_insert M true s id a b with
    | error e => rw [hd] at h; cases h
    | ok s2 =>
      rw [hd] at h
      cases h
      obtain ⟨d0, src, dst, _, _, hl0, hval, rfl⟩ := maptel_insert_inv M true s s1 id a b hd
      obtain ⟨hv1, hv2⟩ := hval rfl
      intro h0 d k v hl hk
      by_cases hh : h0 = id
      · subst hh
        simp only [Finmap.lookup_insert] at hl
        cases hl
        by_cases hks : k = src
        · subst hks
          rw [Finmap.lookup_insert] at hk
          cases hk
          exact ⟨hv1, hv2⟩
        · rw [Finmap.lookup_insert_of_ne _ hks] at hk
          exact hs h0 d0 k v hl0 hk
      · simp only [Finmap.lookup_insert_of_ne _ hh] at hl
        exact hs h0 d k v hl hk
  | erase id a =>
    simp only [step] at h
    cases hd : maptel_erase M true s id a with
    | error e => rw [hd] at h; cases h
    | ok s2 =>
      rw [hd] at h
      cases h
      obtain ⟨d0, src, _, hl0, hs1⟩ := maptel_erase_inv M true s s1 id a hd
      by_cases hm : src ∈ d0
      · rw [if_pos hm] at hs1
        subst hs1
        intro h0 d k v hl hk
        by_cases hh : h0 = id
        · subst hh
          simp only [Finmap.lookup_insert] at hl
          cases hl
          by_cases hks : k = src
          · subst hks
            rw [Finmap.lookup_erase] at hk
            cases hk
          · rw [Finmap.lookup_erase_ne hks] at hk
            exact hs h0 d0 k v hl0 hk
        · simp only [Finmap.lookup_insert_of_ne _ hh] at hl
          exact hs h0 d k v hl hk
      · rw [if_neg hm] at hs1
        subst hs1
        exact hs
  | transform id a buf len =>
    simp only [step] at h
    cases hd : maptel_transform M true s id a buf len with
    | error e => rw [hd] at h; cases h
    | ok p =>
      rw [hd] at h
      cases h
      rw [maptel_transform_state M true s id a buf len p hd]
      exact hs

theorem run_entries_valid (M : Nat) (ops : List Op) :
    ∀ (s0 s : Registry) (rs : List Ret), entries_valid M s0 →
      run M true s0 ops = .ok (s, rs) → entries_valid M s := by
  induction ops with
  | nil =>
    intro s0 s rs h0 h
    cases h
    exact h0
  | cons op ops ih =>
    intro s0 s rs h0 h
    simp only [run] at h
    cases hstep : step M true s0 op with
    | error e => rw [hstep] at h; cases h
    | ok p =>
      obtain ⟨s1, r⟩ := p
      rw [hstep] at h
      simp only at h
      cases hrest : run M true s1 ops with
      | error e => rw [hrest] at h; cases h
      | ok q =>
        obtain ⟨s2, rs2⟩ := q
        rw [hrest] at h
        simp only at h
        cases h
        exact ih s1 s rs2 (step_entries_valid M s0 s1 op r h0 hstep) hrest

theorem entries_valid_initial (M : Nat) : entries_valid M Registry.initial := by
  intro h d k v hl _
  simp [Registry.initial, Finmap.lookup_empty] at hl

/-- A number of the chain is the start or a value of the dictionary. -/
theorem chain_value (d : dictionary_t) (src : List Char) (k : Nat) (e : List Char)
    (h : chain d src k = some e) : e = src ∨ ∃ key, d.lookup key = some e := by
  cases k with
  | zero =>
    left
    exact (Option.some.inj h).symm
  | succ k =>
    right
    have h2 : (chain d src k).bind (fun e => d.lookup e) = some e := h
    cases hc : chain d src k with
    | none => rw [hc] at h2; cases h2
    | some x => rw [hc] at h2; exact ⟨x, h2⟩

/-- On a dictionary with valid values the walk from a valid number returns a
valid number. -/
theorem chain_walk_valid (M : Nat) (d : dictionary_t) (src r : List Char)
    (hd : ∀ k v, d.lookup k = some v → is_tel_valid M (some v) = true)
    (hv : is_tel_valid M (some src) = true) (hr : chain_walk d src = some r) :
    is_tel_valid M (some r) = true := by
  rcases chain_walk_spec d src r hr with ⟨_, k, hk⟩ | ⟨hrs, _⟩
  · rcases chain_value d src k r hk with h | ⟨key, hkey⟩
    · rw [h]; exact hv
    · exact hd key r hkey
  · rw [hrs]; exact hv

/-- C19: in every state reached from the initial one by calls of the checked
build, every key and value of every dictionary is a valid number; hence for a
valid handle and a valid `src` the resolved number is valid, of length at
most `TEL_NUM_MAX_LEN`, and `maptel_transform` with capacity
`TEL_NUM_MAX_LEN + 1` does not fail its capacity assertion (it succeeds when
the buffer really has that many characters). -/
theorem checked_entries_valid (M : Nat) (ops : List Op) (s : Registry) (rs : List Ret)
    (hrun : run M true Registry.initial ops = .ok (s, rs)) :
    (∀ (h : dictionary_id_t) (d : dictionary_t) (k v : List Char),
        s.dictionaries.lookup h = some d → d.lookup k = some v →
        is_tel_valid M (some k) = true ∧ is_tel_valid M (some v) = true) ∧
      (∀ (h : dictionary_id_t) (d : dictionary_t) (src : List Char),
        s.dictionaries.lookup h = some d → is_tel_valid M (some src) = true →
        ∃ r, chain_walk d src = some r ∧ is_tel_valid M (some r) = true ∧ r.length ≤ M ∧
          (∀ buf : List Char,
            maptel_transform M true s h (some src) (some buf) (M + 1) ≠ .error .assertion) ∧
          ∀ buf : List Char, M + 1 ≤ buf.length →
            maptel_transform M true s h (some src) (some buf) (M + 1) =
              .ok (s, store_cstr buf r)) := by
  have hinv : entries_valid M s :=
    run_entries_valid M ops Registry.initial s rs (entries_valid_initial M) hrun
  refine ⟨hinv, ?_⟩
  intro h d src hh hv
  obtain ⟨r, hr⟩ := chain_walk_isSome d src
  have hrv : is_tel_valid M (some r) = true :=
    chain_walk_valid M d src r (fun k v hkv => (hinv h d k v hh hkv).2) hv hr
  obtain ⟨cs, hcs, _, hlen, _⟩ := (is_tel_valid_iff M (some r)).1 hrv
  cases hcs
  refine ⟨r, hr, hrv, hlen, ?_, ?_⟩
  · intro buf
    by_cases hbuf : r.length < buf.length
    · rw [maptel_transform_ok M true s h d src r buf (M + 1) hh hv hr (by omega) hbuf]
      intro hc; cases hc
    · have hlt : r.length < M + 1 := by omega
      simp [maptel_transform, hh, hv, hr, hlt, hbuf]
  · intro buf hbuf
    exact maptel_transform_ok M true s h d src r buf (M + 1) hh hv hr (by omega) (by omega)

theorem checked_entries_valid_witness :
    (∀ (h : dictionary_id_t) (d : dictionary_t) (k v : List Char),
        sample_registry.dictionaries.lookup h = some d → d.lookup k = some v →
        is_tel_valid 22 (some k) = true ∧ is_tel_valid 22 (some v) = true) ∧
      (∀ (h : dictionary_id_t) (d : dictionary_t) (src : List Char),
        sample_registry.dictionaries.lookup h = some d → is_tel_valid 22 (some src) = true →
        ∃ r, chain_walk d src = some r ∧ is_tel_valid 22 (some r) = true ∧ r.length ≤ 22 ∧
          (∀ buf : List Char,
            maptel_transform 22 true sample_registry h (some src) (some buf) (22 + 1) ≠
              .error .assertion) ∧
          ∀ buf : List Char, 22 + 1 ≤ buf.length →
            maptel_transform 22 true sample_registry h (some src) (some buf) (22 + 1) =
              .ok (sample_registry, store_cstr buf r)) :=
  checked_entries_valid 22 chain_calls sample_registry [Ret.handle 0, Ret.unit, Ret.unit] rfl

/-- The call `maptel_transform` on a valid handle, with room for the result;
the number has to be valid in the checked build only. -/
theorem maptel_transform_ok_of (M : Nat) (debug : Bool) (s : Registry) (h : dictionary_id_t)
    (d : dictionary_t) (src r buf : List Char) (len : Nat)
    (hh : s.dictionaries.lookup h = some d)
    (hv : debug = true → is_tel_valid M (some src) = true)
    (hw : chain_walk d src = some r) (hlen : r.length < len) (hbuf : r.length < buf.length) :
    maptel_transform M debug s h (some src) (some buf) len = .ok (s, store_cstr buf r) := by
  cases debug with
  | true => exact maptel_transform_ok M true s h d src r buf len hh (hv rfl) hw hlen hbuf
  | false => simp [maptel_transform, hh, hw, hbuf]

/-- Resolving a resolved number gives it back. -/
theorem chain_walk_idem (d : dictionary_t) (src r : List Char) (hr : chain_walk d src = some r) :
    chain_walk d r = some r := by
  rcases chain_walk_spec d src r hr with ⟨hnone, _⟩ | ⟨hrs, _⟩
  · exact chain_walk_of_end d r r 0 rfl hnone
  · rw [hrs]; rw [hrs] at hr; exact hr

/-- In the release build every state, and in the checked build every state
reached from the initial one, resolves a valid number to a number that the
build accepts as a source. -/
theorem resolved_accepted (M : Nat) (debug : Bool) (ops : List Op) (s : Registry)
    (rs : List Ret) (hrun : run M debug Registry.initial ops = .ok (s, rs))
    (h : dictionary_id_t) (d : dictionary_t) (src r : List Char)
    (hh : s.dictionaries.lookup h = some d) (hv : is_tel_valid M (some src) = true)
    (hr : chain_walk d src = some r) : debug = true → is_tel_valid M (some r) = true := by
  intro hd
  subst hd
  have hinv : entries_valid M s :=
    run_entries_valid M ops Registry.initial s rs (entries_valid_initial M) hrun
  exact chain_walk_valid M d src r (fun k v hkv => (hinv h d k v hh hkv).2) hv hr

/-- C20: `maptel_transform` is idempotent on its result. In every state the
program reaches (in either build), for a valid handle and a valid `src`,
there is a number `r` that `maptel_transform(h, src)` writes and that
`maptel_transform(h, r)` writes again; and on every dictionary whatever the
walk from a resolved number returns that number. -/
theorem maptel_transform_idempotent (M : Nat) (debug : Bool) (ops : List Op) (s : Registry)
    (rs : List Ret) (hrun : run M debug Registry.initial ops = .ok (s, rs))
    (h : dictionary_id_t) (d : dictionary_t) (src : List Char)
    (hh : s.dictionaries.lookup h = some d) (hv : is_tel_valid M (some src) = true) :
    (∃ r, chain_walk d src = some r ∧ chain_walk d r = some r ∧
      ∀ (buf buf2 : List Char) (len len2 : Nat), r.length < len → r.length < buf.length →
        r.length < len2 → r.length < buf2.length →
        maptel_transform M debug s h (some src) (some buf) len = .ok (s, store_cstr buf r) ∧
        maptel_transform M debug s h (some r) (some buf2) len2 =
          .ok (s, store_cstr buf2 r)) ∧
      ∀ (d1 : dictionary_t) (t r1 : List Char), chain_walk d1 t = some r1 →
        chain_walk d1 r1 = some r1 := by
  refine ⟨?_, chain_walk_idem⟩
  obtain ⟨r, hr⟩ := chain_walk_isSome d src
  have hidem := chain_walk_idem d src r hr
  refine ⟨r, hr, hidem, ?_⟩
  intro buf buf2 len len2 hlen hbuf hlen2 hbuf2
  exact ⟨maptel_transform_ok_of M debug s h d src r buf len hh (fun _ => hv) hr hlen hbuf,
    maptel_transform_ok_of M debug s h d r r buf2 len2 hh
      (resolved_accepted M debug ops s rs hrun h d src r hh hv hr) hidem hlen2 hbuf2⟩

theorem maptel_transform_idempotent_witness :
    (∃ r, chain_walk (((∅ : dictionary_t).insert ['1'] ['2']).insert ['2'] ['3']) ['1'] =
        some r ∧
      chain_walk (((∅ : dictionary_t).insert ['1'] ['2']).insert ['2'] ['3']) r = some r ∧
      ∀ (buf buf2 : List Char) (len len2 : Nat), r.length < len → r.length < buf.length →
        r.length < len2 → r.length < buf2.length →
        maptel_transform 22 true sample_registry 0 (some ['1']) (some buf) len =
          .ok (sample_registry, store_cstr buf r) ∧
        maptel_transform 22 true sample_registry 0 (some r) (some buf2) len2 =
          .ok (sample_registry, store_cstr buf2 r)) ∧
      ∀ (d1 : dictionary_t) (t r1 : List Char), chain_walk d1 t = some r1 →
        chain_walk d1 r1 = some r1 :=
  maptel_transform_idempotent 22 true chain_calls sample_registry
    [Ret.handle 0, Ret.unit, Ret.unit] rfl 0
    (((∅ : dictionary_t).insert ['1'] ['2']).insert ['2'] ['3']) ['1'] (by decide) (by decide)

/-! ## Valid handles -/

/-- The words of the specification, one call further back. -/
theorem returned_and_not_deleted_cons (e : Op × Ret) (hist : List (Op × Ret))
    (h : dictionary_id_t) :
    returned_and_not_deleted (e :: hist) h ↔
      returned_and_not_deleted hist h ∨
        (e = (Op.create, Ret.handle h) ∧ ∀ x ∈ hist, x.1 ≠ Op.delete h) := by
  constructor
  · rintro ⟨before, after, heq, hafter⟩
    cases before with
    | nil =>
      right
      simp only [List.nil_append, List.cons.injEq] at heq
      obtain ⟨h1, h2⟩ := heq
      subst h2
      exact ⟨h1, hafter⟩
    | cons b before =>
      left
      simp only [List.cons_append, List.cons.injEq] at heq
      exact ⟨before, after, heq.2, hafter⟩
  · rintro (⟨before, after, heq, hafter⟩ | ⟨h1, h2⟩)
    · exact ⟨e :: before, after, by rw [heq]; rfl, hafter⟩
    · exact ⟨[], hist, by rw [h1]; rfl, h2⟩

/-- What a call does to the set of valid handles; the counter stays below
`ULONG_MODULUS`. -/
theorem step_keys (M : Nat) (debug : Bool) (s s1 : Registry) (op : Op) (r : Ret)
    (hlt : s.id_g < ULONG_MODULUS) (hstep : step M debug s op = .ok (s1, r)) :
    s1.id_g < ULONG_MODULUS ∧
      ∀ h, h ∈ s1.dictionaries ↔
        ((op, r) = (Op.create, Ret.handle h) ∨ (h ∈ s.dictionaries ∧ op ≠ Op.delete h)) := by
  cases op with
  | create =>
    simp only [step, maptel_create] at hstep
    cases hstep
    refine ⟨Nat.mod_lt _ (Nat.two_pow_pos 64), fun h => ?_⟩
    rw [create_handle_eq, Nat.mod_eq_of_lt hlt]
    simp only [Prod.mk.injEq, true_and, Ret.handle.injEq, ne_eq, not_false_eq_true, and_true,
      reduceCtorEq]
    by_cases hm : s.id_g ∈ s.dictionaries
    · rw [if_pos hm]
      constructor
      · intro hh; exact Or.inr hh
      · rintro (hh | hh)
        · rw [← hh]; exact hm
        · exact hh
    · rw [if_neg hm, Finmap.mem_insert]
      constructor
      · rintro (hh | hh)
        · exact Or.inl hh.symm
        · exact Or.inr hh
      · rintro (hh | hh)
        · exact Or.inl hh.symm
        · exact Or.inr hh
  | delete id =>
    simp only [step] at hstep
    cases hd : maptel_delete debug s id with
    | error e => rw [hd] at hstep; cases hstep
    | ok s2 =>
      rw [hd] at hstep
      cases hstep
      obtain ⟨_, rfl⟩ := maptel_delete_inv debug s s1 id hd
      refine ⟨hlt, fun h => ?_⟩
      simp only [Finmap.mem_erase, Prod.mk.injEq, reduceCtorEq, false_and, false_or, ne_eq,
        Op.delete.injEq]
      constructor
      · rintro ⟨h1, h2⟩; exact ⟨h2, fun hc => h1 hc.symm⟩
      · rintro ⟨h1, h2⟩; exact ⟨fun hc => h2 hc.symm, h1⟩
  | insert id a b =>
    simp only [step] at hstep
    cases hd : maptel_insert M debug s id a b with
    | error e => rw [hd] at hstep; cases hstep
    | ok s2 =>
      rw [hd] at hstep
      cases hstep
      obtain ⟨d0, src, dst, _, _, hl0, _, rfl⟩ := maptel_insert_inv M debug s s1 id a b hd
      refine ⟨hlt, fun h => ?_⟩
      simp only [Finmap.mem_insert, Prod.mk.injEq, reduceCtorEq, false_and, false_or, ne_eq,
        not_false_eq_true, and_true]
      constructor
      · rintro (hh | hh)
        · rw [hh]; exact Finmap.mem_of_lookup_eq_some hl0
        · exact hh
      · intro hh; exact Or.inr hh
  | erase id a =>
    simp only [step] at hstep
    cases hd : maptel_erase M debug s id a with
    | error e => rw [hd] at hstep; cases hstep
    | ok s2 =>
      rw [hd] at hstep
      cases hstep
      obtain ⟨d0, src, _, hl0, hs1⟩ := maptel_erase_inv M debug s s1 id a hd
      by_cases hm : src ∈ d0
      · rw [if_pos hm] at hs1
        subst hs1
        refine ⟨hlt, fun h => ?_⟩
        simp only [Finmap.mem_insert, Prod.mk.injEq, reduceCtorEq, false_and, false_or, ne_eq,
          not_false_eq_true, and_true]
        constructor
        · rintro (hh | hh)
          · rw [hh]; exact Finmap.mem_of_lookup_eq_some hl0
          · exact hh
        · intro hh; exact Or.inr hh
      · rw [if_neg hm] at hs1
        subst hs1
        refine ⟨hlt, fun h => ?_⟩
        simp only [Prod.mk.injEq, reduceCtorEq, false_and, false_or, ne_eq, not_false_eq_true,
          and_true]
  | transform id a buf len =>
    simp only [step] at hstep
    cases hd : maptel_transform M debug s id a buf len with
    | error e => rw [hd] at hstep; cases hstep
    | ok p =>
      rw [hd] at hstep
      cases hstep
      rw [maptel_transform_state M debug s id a buf len p hd]
      refine ⟨hlt, fun h => ?_⟩
      simp only [Prod.mk.injEq, reduceCtorEq, false_and, false_or, ne_eq, not_false_eq_true,
        and_true]

/-- The valid handles after a run: those returned by `maptel_create` and not
deleted since, and those valid at the start and not deleted. -/
theorem run_keys (M : Nat) (debug : Bool) (ops : List Op) :
    ∀ (s0 s : Registry) (rs : List Ret), s0.id_g < ULONG_MODULUS →
      run M debug s0 ops = .ok (s, rs) →
      s.id_g < ULONG_MODULUS ∧
        ∀ h, h ∈ s.dictionaries ↔
          (returned_and_not_deleted (ops.zip rs) h ∨
            (h ∈ s0.dictionaries ∧ ∀ x ∈ ops.zip rs, x.1 ≠ Op.delete h)) := by
  induction ops with
  | nil =>
    intro s0 s rs hlt h
    cases h
    refine ⟨hlt, fun h => ?_⟩
    simp only [List.zip_nil_left, List.not_mem_nil, false_imp_iff, implies_true, and_true]
    constructor
    · intro hh; exact Or.inr hh
    · rintro (⟨before, after, heq, _⟩ | hh)
      · cases before <;> cases heq
      · exact hh
  | cons op ops ih =>
    intro s0 s rs hlt h
    simp only [run] at h
    cases hstep : step M debug s0 op with
    | error e => rw [hstep] at h; cases h
    | ok p =>
      obtain ⟨s1, r⟩ := p
      rw [hstep] at h
      simp only at h
      cases hrest : run M debug s1 ops with
      | error e => rw [hrest] at h; cases h
      | ok q =>
        obtain ⟨s2, rs2⟩ := q
        rw [hrest] at h
        simp only at h
        cases h
        obtain ⟨hlt1, hkeys1⟩ := step_keys M debug s0 s1 op r hlt hstep
        obtain ⟨hlt2, hkeys2⟩ := ih s1 s rs2 hlt1 hrest
        refine ⟨hlt2, fun h => ?_⟩
        rw [hkeys2 h, hkeys1 h, List.zip_cons_cons, returned_and_not_deleted_cons]
        simp only [List.forall_mem_cons]
        tauto

/-- The counter after a run counts the `maptel_create` calls. -/
theorem run_counter (M : Nat) (debug : Bool) (ops : List Op) :
    ∀ (s0 s : Registry) (rs : List Ret), s0.id_g < ULONG_MODULUS →
      run M debug s0 ops = .ok (s, rs) →
      s.id_g = (s0.id_g + (created_handles rs).length) % ULONG_MODULUS := by
  induction ops with
  | nil =>
    intro s0 s rs hlt h
    cases h
    exact (Nat.mod_eq_of_lt hlt).symm
  | cons op ops ih =>
    intro s0 s rs hlt h
    simp only [run] at h
    cases hstep : step M debug s0 op with
    | error e => rw [hstep] at h; cases h
    | ok p =>
      obtain ⟨s1, r⟩ := p
      rw [hstep] at h
      simp only at h
      cases hrest : run M debug s1 ops with
      | error e => rw [hrest] at h; cases h
      | ok q =>
        obtain ⟨s2, rs2⟩ := q
        rw [hrest] at h
        simp only at h
        cases h
        have hlt1 := (step_keys M debug s0 s1 op r hlt hstep).1
        have ih1 := ih s1 s rs2 hlt1 hrest
        have hcons : created_handles (r :: rs2) = created_handles [r] ++ created_handles rs2 :=
          created_handles_append [r] rs2
        rcases step_counter M debug s0 s1 op r hstep with ⟨hr, hid⟩ | ⟨hr, hid⟩
        · rw [ih1, hcons, hr, hid, List.singleton_append, List.length_cons]
          exact counter_shift s0.id_g _
        · rw [ih1, hcons, hr, hid, List.nil_append]

theorem mem_created_handles (h : dictionary_id_t) (rs : List Ret) (hm : Ret.handle h ∈ rs) :
    h ∈ created_handles rs := by
  induction rs with
  | nil => cases hm
  | cons r rs ih =>
    rcases List.mem_cons.1 hm with h1 | h1
    · rw [← h1]
      simp [created_handles]
    · cases r <;> simp [created_handles, ih h1]

/-- In a run from the initial state with fewer than `2^64` calls of
`maptel_create`, every valid handle is below the counter. -/
theorem run_valid_lt_counter (M : Nat) (debug : Bool) (ops : List Op) (s : Registry)
    (rs : List Ret) (hrun : run M debug Registry.initial ops = .ok (s, rs))
    (hn : (created_handles rs).length < ULONG_MODULUS) (h : dictionary_id_t)
    (hh : h ∈ s.dictionaries) : h < s.id_g := by
  have hpos : Registry.initial.id_g < ULONG_MODULUS := Nat.two_pow_pos 64
  have hkeys := (run_keys M debug ops Registry.initial s rs hpos hrun).2 h
  have hcnt := run_counter M debug ops Registry.initial s rs hpos hrun
  have h0 : Registry.initial.id_g = 0 := rfl
  rw [h0, Nat.zero_add, Nat.mod_eq_of_lt hn] at hcnt
  rcases hkeys.1 hh with ⟨before, after, heq, _⟩ | ⟨hc, _⟩
  · have hmem : (Op.create, Ret.handle h) ∈ ops.zip rs := by
      rw [heq]; simp
    have hmem2 : h ∈ created_handles rs := mem_created_handles h rs (List.of_mem_zip hmem).2
    have hrange := run_created_handles M debug ops Registry.initial s rs hrun
    rw [h0] at hrange
    rw [hrange] at hmem2
    obtain ⟨i, hi, hih⟩ := List.mem_map.1 hmem2
    rw [List.mem_range] at hi
    rw [hcnt, ← hih, Nat.zero_add, Nat.mod_eq_of_lt (Nat.lt_trans hi hn)]
    exact hi
  · exact absurd hc Finmap.not_mem_empty

/-- C11 (amended): in every state reached from the initial one, a handle is a
key of the registry exactly when it was returned by an earlier `maptel_create`
and has not been passed to a `maptel_delete` since; and as long as fewer than
`2^64` dictionaries have been created, every valid handle is below the
counter. -/
theorem valid_handles_history (M : Nat) (debug : Bool) (ops : List Op) (s : Registry)
    (rs : List Ret) (hrun : run M debug Registry.initial ops = .ok (s, rs)) :
    (∀ h, h ∈ s.dictionaries ↔ returned_and_not_deleted (ops.zip rs) h) ∧
      ((created_handles rs).length < ULONG_MODULUS → ∀ h, h ∈ s.dictionaries → h < s.id_g) := by
  have hpos : Registry.initial.id_g < ULONG_MODULUS := Nat.two_pow_pos 64
  refine ⟨fun h => ?_, fun hn h hh => run_valid_lt_counter M debug ops s rs hrun hn h hh⟩
  rw [(run_keys M debug ops Registry.initial s rs hpos hrun).2 h]
  constructor
  · rintro (hh | ⟨hc, _⟩)
    · exact hh
    · exact absurd hc Finmap.not_mem_empty
  · intro hh; exact Or.inl hh

theorem valid_handles_history_witness :
    (∀ h, h ∈ sample_registry.dictionaries ↔
        returned_and_not_deleted (chain_calls.zip [Ret.handle 0, Ret.unit, Ret.unit]) h) ∧
      ((created_handles [Ret.handle 0, Ret.unit, Ret.unit]).length < ULONG_MODULUS →
        ∀ h, h ∈ sample_registry.dictionaries → h < sample_registry.id_g) :=
  valid_handles_history 22 true chain_calls sample_registry [Ret.handle 0, Ret.unit, Ret.unit]
    rfl

/-- C11 (counterexample): after `2^64 - 1` rounds of `maptel_create` and
`maptel_delete` and one more `maptel_create`, which run without fault, the
handle `2^64 - 1` is valid and the counter is `0`: a valid handle that is not
below the counter. -/
theorem valid_handle_not_below_counter :
    run 22 true Registry.initial (create_delete_rounds (ULONG_MODULUS - 1) ++ [Op.create]) =
        .ok (wrapped_registry,
          create_delete_results (ULONG_MODULUS - 1) ++ [Ret.handle (ULONG_MODULUS - 1)]) ∧
      (ULONG_MODULUS - 1) ∈ wrapped_registry.dictionaries ∧
      ¬(ULONG_MODULUS - 1 < wrapped_registry.id_g) := by
  have hpos : 0 < ULONG_MODULUS := Nat.two_pow_pos 64
  refine ⟨?_, ?_, ?_⟩
  · apply run_append 22 true _ _ _ _ _ _ _
      (run_create_delete_rounds 22 true _ (Nat.sub_le _ _))
    rw [Nat.mod_eq_of_lt (Nat.sub_lt hpos Nat.one_pos)]
    have hcreate : maptel_create ⟨∅, ULONG_MODULUS - 1⟩ =
        (wrapped_registry, ULONG_MODULUS - 1) := by
      have h0 := create_handle_eq (ULONG_MODULUS - 1)
      rw [Nat.mod_eq_of_lt (Nat.sub_lt hpos Nat.one_pos)] at h0
      have h1 : (ULONG_MODULUS - 1 + 1) % ULONG_MODULUS = 0 := by
        rw [Nat.sub_add_cancel hpos, Nat.mod_self]
      simp only [maptel_create, Finmap.not_mem_empty, if_false, wrapped_registry]
      rw [h0, h1]
    simp only [run, step, hcreate]
  · simp only [wrapped_registry, Finmap.mem_insert, true_or]
  · simp only [wrapped_registry, Nat.not_lt_zero, not_false_eq_true]

/-- Rounds of `maptel_create` and `maptel_delete` on handles that are not
valid leave the dictionaries as they are and move the counter on. -/
theorem run_create_delete_rounds_from (M : Nat) (debug : Bool)
    (D : Finmap (fun _ : dictionary_id_t => dictionary_t)) (c : Nat) (hc : c < ULONG_MODULUS) :
    ∀ n, c + n ≤ ULONG_MODULUS → (∀ i, i < n → c + i ∉ D) →
      run M debug ⟨D, c⟩ (create_delete_rounds_from c n) =
        .ok (⟨D, (c + n) % ULONG_MODULUS⟩, create_delete_results_from c n) := by
  intro n
  induction n with
  | zero =>
    intro hle _
    rw [Nat.add_zero, Nat.mod_eq_of_lt hc]
    rfl
  | succ n ih =>
    intro hle hfree
    have hlt : c + n < ULONG_MODULUS := by omega
    have hn : (c + n) % ULONG_MODULUS = c + n := Nat.mod_eq_of_lt hlt
    apply run_append M debug _ _ _ _ _ _ _
      (ih (Nat.le_of_lt hlt) (fun i hi => hfree i (Nat.lt_succ_of_lt hi)))
    rw [hn]
    have hfree1 : c + n ∉ D := hfree n (Nat.lt_succ_self n)
    have hcreate : maptel_create ⟨D, c + n⟩ =
        (⟨Finmap.insert (c + n) ∅ D, (c + n + 1) % ULONG_MODULUS⟩, c + n) := by
      simp only [maptel_create, hfree1, if_false, create_handle_eq, hn]
    have herase : Finmap.erase (c + n) (Finmap.insert (c + n) (∅ : dictionary_t) D) = D :=
      erase_insert_of_not_mem hfree1
    simp only [run, step, hcreate, maptel_delete, Finmap.lookup_insert, herase, Except.map,
      Nat.add_assoc]

/-- In a state reached from the initial one the counter is the handle that
`maptel_create` returns. -/
theorem maptel_create_handle (M : Nat) (debug : Bool) (ops : List Op) (s : Registry)
    (rs : List Ret) (hrun : run M debug Registry.initial ops = .ok (s, rs)) :
    (maptel_create s).2 = s.id_g := by
  have hpos : Registry.initial.id_g < ULONG_MODULUS := Nat.two_pow_pos 64
  have hlt := (run_keys M debug ops Registry.initial s rs hpos hrun).1
  simp only [maptel_create, create_handle_eq, Nat.mod_eq_of_lt hlt]

/-- C12 (amended): in every state reached from the initial one,
`maptel_create` makes the handle it returns valid and leaves every valid
handle valid with its dictionary; and as long as fewer than `2^64`
dictionaries have been created before, the handle returned was not valid
before and its dictionary is empty, so that `maptel_transform` on it writes
back every valid number. -/
theorem maptel_create_contract (M : Nat) (debug : Bool) (ops : List Op) (s : Registry)
    (rs : List Ret) (hrun : run M debug Registry.initial ops = .ok (s, rs)) :
    (maptel_create s).2 ∈ (maptel_create s).1.dictionaries ∧
      (∀ h d, s.dictionaries.lookup h = some d →
        (maptel_create s).1.dictionaries.lookup h = some d) ∧
      ((created_handles rs).length < ULONG_MODULUS →
        (maptel_create s).2 ∉ s.dictionaries ∧
        (maptel_create s).1.dictionaries.lookup (maptel_create s).2 = some ∅ ∧
        ∀ (src buf : List Char) (len : Nat), is_tel_valid M (some src) = true →
          src.length < len → src.length < buf.length →
          maptel_transform M debug (maptel_create s).1 (maptel_create s).2 (some src) (some buf)
            len = .ok ((maptel_create s).1, store_cstr buf src)) := by
  have hhandle := maptel_create_handle M debug ops s rs hrun
  have hdict : (maptel_create s).1.dictionaries =
      if s.id_g ∈ s.dictionaries then s.dictionaries else s.dictionaries.insert s.id_g ∅ := rfl
  refine ⟨?_, ?_, ?_⟩
  · rw [hhandle, hdict]
    by_cases hm : s.id_g ∈ s.dictionaries
    · rw [if_pos hm]; exact hm
    · rw [if_neg hm, Finmap.mem_insert]; exact Or.inl rfl
  · intro h d hl
    rw [hdict]
    by_cases hm : s.id_g ∈ s.dictionaries
    · rw [if_pos hm]; exact hl
    · rw [if_neg hm]
      have hne : h ≠ s.id_g := by
        intro hc
        rw [hc] at hl
        exact hm (Finmap.mem_of_lookup_eq_some hl)
      rw [Finmap.lookup_insert_of_ne _ hne]
      exact hl
  · intro hn
    have hfresh : s.id_g ∉ s.dictionaries := fun hc =>
      Nat.lt_irrefl _ (run_valid_lt_counter M debug ops s rs hrun hn s.id_g hc)
    have hl : (maptel_create s).1.dictionaries.lookup (maptel_create s).2 = some ∅ := by
      rw [hhandle, hdict, if_neg hfresh, Finmap.lookup_insert]
    refine ⟨by rw [hhandle]; exact hfresh, hl, ?_⟩
    intro src buf len hv hlen hbuf
    exact maptel_transform_ok M debug _ _ ∅ src src buf len hl hv
      (chain_walk_of_end ∅ src src 0 rfl (Finmap.lookup_empty _)) hlen hbuf

theorem maptel_create_contract_witness :
    (maptel_create sample_registry).2 ∈ (maptel_create sample_registry).1.dictionaries ∧
      (∀ h d, sample_registry.dictionaries.lookup h = some d →
        (maptel_create sample_registry).1.dictionaries.lookup h = some d) ∧
      ((created_handles [Ret.handle 0, Ret.unit, Ret.unit]).length < ULONG_MODULUS →
        (maptel_create sample_registry).2 ∉ sample_registry.dictionaries ∧
        (maptel_create sample_registry).1.dictionaries.lookup (maptel_create sample_registry).2 =
          some ∅ ∧
        ∀ (src buf : List Char) (len : Nat), is_tel_valid 22 (some src) = true →
          src.length < len → src.length < buf.length →
          maptel_transform 22 true (maptel_create sample_registry).1
            (maptel_create sample_registry).2 (some src) (some buf) len =
              .ok ((maptel_create sample_registry).1, store_cstr buf src)) :=
  maptel_create_contract 22 true chain_calls sample_registry [Ret.handle 0, Ret.unit, Ret.unit]
    rfl

/-- C12 (counterexample): a dictionary is created under handle `0` and given
the entry `1 ↦ 2`; after `2^64 - 1` further rounds of `maptel_create` and
`maptel_delete` the counter is back at `0`. In that state `maptel_create`
returns the handle `0`, whose dictionary is not empty: `maptel_transform` on
it writes `2` for `1`. -/
theorem maptel_create_returns_live_handle :
    run 22 true Registry.initial wrapping_calls =
        .ok (kept_registry 0, [Ret.handle 0, Ret.unit] ++
          create_delete_results_from 1 (ULONG_MODULUS - 1)) ∧
      maptel_create (kept_registry 0) = (kept_registry 1, 0) ∧
      (kept_registry 1).dictionaries.lookup 0 = some ((∅ : dictionary_t).insert ['1'] ['2']) ∧
      (∅ : dictionary_t).insert ['1'] ['2'] ≠ ∅ ∧
      maptel_transform 22 true (kept_registry 1) 0 (some ['1']) (some sample_buffer) 4 =
        .ok (kept_registry 1, ['2', NUL, 'x', 'x']) := by
  have hpos : 0 < ULONG_MODULUS := Nat.two_pow_pos 64
  have hone : 1 < ULONG_MODULUS := Nat.one_lt_two_pow (by decide)
  refine ⟨?_, ?_, by decide, by decide, rfl⟩
  · have hfirst : run 22 true Registry.initial
        [Op.create, Op.insert 0 (some ['1']) (some ['2'])] =
        .ok (kept_registry 1, [Ret.handle 0, Ret.unit]) := rfl
    have hrounds := run_create_delete_rounds_from 22 true (kept_registry 1).dictionaries 1 hone
      (ULONG_MODULUS - 1) (by omega) (by
        intro i _
        simp only [kept_registry, Finmap.mem_insert, Finmap.not_mem_empty, or_false]
        omega)
    rw [show 1 + (ULONG_MODULUS - 1) = ULONG_MODULUS by omega, Nat.mod_self] at hrounds
    exact run_append 22 true _ _ _ _ _ _ _ hfirst hrounds
  · have h0 := create_handle_eq 0
    rw [Nat.zero_mod] at h0
    have h1 : (0 + 1) % ULONG_MODULUS = 1 := Nat.mod_eq_of_lt hone
    have hm : (0 : dictionary_id_t) ∈ (kept_registry 0).dictionaries := by
      simp only [kept_registry, Finmap.mem_insert, true_or]
    have hid : (kept_registry 0).id_g = 0 := rfl
    simp only [maptel_create, hid, hm, if_true]
    rw [h0, h1]
    rfl

end jnp1
